import Mathlib

/-!
# Verification of the repository-audit analysis pipeline

Shallow embedding of `backend/app/services/pipeline.py`,
`backend/app/services/neo4j.py` and `backend/app/clients/tool_logger.py`.

Python `dict` findings are embedded as a `Finding` structure whose fields are
`Option`-valued exactly where the source reads them with `dict.get` (absence of
a key is `none`).  Python floats that only ever hold small decimal literals
(`0.2`, confidence values, progress) are embedded as `Rat`; for every quantity
the pipeline rounds, the fractional part is a multiple of 1/5, so no value is
ever exactly half-way between two integers and `round` agrees with Python's
banker's rounding on all reachable inputs.
-/

namespace Pipeline

/-- Location sub-dict of a finding: `{"files": [...], "primary_file": ...}`. -/
structure Loc where
  files : List String := []
  primary_file : String := ""
  deriving Repr, DecidableEq

/-- The nested `"cve"` dict a finding may carry
(`{"id": ..., "cvssScore": ..., "fixedVersion": ...}`). -/
structure CveInfo where
  id : String
  cvssScore : Option Rat := none
  description : String := ""
  fixedVersion : String := ""
  deriving Repr, DecidableEq

/-- A finding dict as produced by the pipeline stages.  Every field that the
source reads via `f.get(...)` is an `Option` (a missing key is `none`). -/
structure Finding where
  id : Option String := none
  type : Option String := none
  severity : Option String := none
  agent : Option String := none
  title : Option String := none
  description : Option String := none
  plain_description : Option String := none
  location : Option Loc := none
  confidence : Option Rat := none
  cve : Option CveInfo := none
  cve_id : Option String := none
  deriving Repr, DecidableEq

/-- The `stats` dict computed by `_ingest_metadata` (pipeline.py:390-397). -/
structure Stats where
  total_files : Nat := 0
  total_lines : Nat := 0
  total_dependencies : Nat := 0
  total_dev_dependencies : Nat := 0
  total_functions : Nat := 0
  total_endpoints : Nat := 0
  deriving Repr, DecidableEq

/-- One category entry of the health-score `breakdown` dict. -/
structure CategoryScore where
  score : Int
  max : Nat := 10
  status : String
  deriving Repr, DecidableEq

/-- The `breakdown` dict of `_compute_health_score` (pipeline.py:1547-1553). -/
structure Breakdown where
  codeQuality : CategoryScore
  security : CategoryScore
  patterns : CategoryScore
  dependencies : CategoryScore
  architecture : CategoryScore
  deriving Repr, DecidableEq

/-- Return value of `_compute_health_score`. -/
structure HealthScore where
  overall : Int
  letterGrade : String
  breakdown : Breakdown
  confidence : Rat
  deriving Repr, DecidableEq

/-- Python `needle in haystack` on strings (substring test), used for
`"architecture" in (f.get("type") or "")`. -/
def strContains (hay needle : String) : Bool :=
  (hay.splitOn needle).length > 1

/-- The inner `grade` function of `_compute_health_score`
(pipeline.py:1531-1542), verbatim threshold chain. -/
def grade (score : Int) : String :=
  if score ≥ 97 then "A+"
  else if score ≥ 93 then "A"
  else if score ≥ 90 then "A-"
  else if score ≥ 87 then "B+"
  else if score ≥ 83 then "B"
  else if score ≥ 80 then "B-"
  else if score ≥ 77 then "C+"
  else if score ≥ 73 then "C"
  else if score ≥ 70 then "C-"
  else if score ≥ 60 then "D"
  else "F"

/-- `_compute_health_score(findings, stats)` (pipeline.py:1522-1555).
The `stats` parameter is accepted and ignored exactly as in the source. -/
def compute_health_score (findings : List Finding) (stats : Stats) : HealthScore :=
  let critical : Nat := (findings.filter (fun f => f.severity = some "critical")).length
  let warnings : Nat := (findings.filter (fun f => f.severity = some "warning")).length
  let info : Nat := (findings.filter (fun f => f.severity = some "info")).length
  let penalty : Rat := critical * 3 + warnings * 1 + info * (2/10)
  let overall : Int := max 0 (min 100 (round ((100 : Rat) - penalty * 2)))
  let _ := stats
  { overall := overall
    letterGrade := grade overall
    breakdown :=
      { codeQuality :=
          { score := max 0 (10 - (warnings : Int))
            status := if warnings > 3 then "warning" else "healthy" }
        security :=
          { score := max 0 (10 - (critical : Int) * 3)
            status := if critical > 0 then "critical" else "healthy" }
        patterns :=
          { score := max 0 (10 - ((findings.filter (fun f => f.agent = some "pattern")).length : Int))
            status := if findings.any (fun f => f.agent = some "pattern") then "warning" else "healthy" }
        dependencies :=
          { score := max 0 (10 - (critical : Int))
            status := if critical > 0 then "warning" else "healthy" }
        architecture :=
          { score := max 5 (10 - ((findings.filter (fun f => strContains (f.type.getD "") "architecture")).length : Int))
            status := if findings.any (fun f => strContains (f.type.getD "") "architecture") then "warning" else "healthy" } }
    confidence := 85/100 }

/-!
## Spec-side restatement of the scoring formula (claim C1)

These definitions follow the words of the specification
("Penalty = 3×(#critical) + 1×(#warning) + 0.2×(#info).
Overall = clamp(0,100, round(100 − 2×penalty)).  Letter grade via fixed
thresholds") and are compared with `compute_health_score` above.
-/

/-- Spec-side penalty: `3*(#critical) + 1*(#warning) + 0.2*(#info)`. -/
def specPenalty (findings : List Finding) : Rat :=
  3 * ((findings.filter (fun f => f.severity = some "critical")).length : Rat)
    + 1 * ((findings.filter (fun f => f.severity = some "warning")).length : Rat)
    + (2/10) * ((findings.filter (fun f => f.severity = some "info")).length : Rat)

/-- Spec-side overall score: `clamp(0,100, round(100 - 2*penalty))`. -/
def specOverall (findings : List Finding) : Int :=
  max 0 (min 100 (round ((100 : Rat) - 2 * specPenalty findings)))

/-- Spec-side letter grade from the fixed thresholds
(>=97 A+, >=93 A, >=90 A-, >=87 B+, >=83 B, >=80 B-, >=77 C+, >=73 C,
>=70 C-, >=60 D, else F). -/
def specGrade (overall : Int) : String :=
  if overall ≥ 97 then "A+"
  else if overall ≥ 93 then "A"
  else if overall ≥ 90 then "A-"
  else if overall ≥ 87 then "B+"
  else if overall ≥ 83 then "B"
  else if overall ≥ 80 then "B-"
  else if overall ≥ 77 then "C+"
  else if overall ≥ 73 then "C"
  else if overall ≥ 70 then "C-"
  else if overall ≥ 60 then "D"
  else "F"

/-- The inner `grade` function and the spec's threshold table coincide. -/
theorem grade_eq_specGrade (s : Int) : grade s = specGrade s := rfl

/-- Permutations preserve `filter`-lengths (severity counts etc.). -/
theorem perm_filter_length {α : Type} {l1 l2 : List α} (h : l1.Perm l2) (p : α → Bool) :
    (l1.filter p).length = (l2.filter p).length := by
  rw [← List.countP_eq_length_filter, ← List.countP_eq_length_filter]
  exact h.countP_eq p

/-- Permutations preserve `any`. -/
theorem perm_any {α : Type} {l1 l2 : List α} (h : l1.Perm l2) (p : α → Bool) :
    l1.any p = l2.any p := by
  rw [Bool.eq_iff_iff, List.any_eq_true, List.any_eq_true]
  constructor <;> rintro ⟨x, hx, hpx⟩
  · exact ⟨x, h.mem_iff.1 hx, hpx⟩
  · exact ⟨x, h.mem_iff.2 hx, hpx⟩

/-- C1: for every finding list and stats, the health scorer returns
`overall = clamp(0,100, round(100 - 2*penalty))` with
`penalty = 3*#critical + 1*#warning + 0.2*#info`, and a letter grade that is
the fixed-threshold function of `overall` alone; the 2-critical/3-warning list
scores 82 with grade "B-", and the empty list scores 100 with grade "A+". -/
theorem c1_health_score_formula :
    (∀ (findings : List Finding) (stats : Stats),
      (compute_health_score findings stats).overall = specOverall findings ∧
      (compute_health_score findings stats).letterGrade
        = specGrade (specOverall findings)) ∧
    (∀ stats : Stats,
      (compute_health_score
        [{severity := some "critical"}, {severity := some "critical"},
         {severity := some "warning"}, {severity := some "warning"},
         {severity := some "warning"}] stats).overall = 82 ∧
      (compute_health_score
        [{severity := some "critical"}, {severity := some "critical"},
         {severity := some "warning"}, {severity := some "warning"},
         {severity := some "warning"}] stats).letterGrade = "B-") ∧
    (∀ stats : Stats,
      (compute_health_score [] stats).overall = 100 ∧
      (compute_health_score [] stats).letterGrade = "A+") := by
  have hoverall : ∀ (findings : List Finding) (stats : Stats),
      (compute_health_score findings stats).overall = specOverall findings := by
    intro findings stats
    simp only [compute_health_score, specOverall, specPenalty]
    congr 3
    ring
  have hgrade : ∀ (findings : List Finding) (stats : Stats),
      (compute_health_score findings stats).letterGrade
        = specGrade (specOverall findings) := by
    intro findings stats
    rw [← hoverall findings stats, ← grade_eq_specGrade]
    rfl
  have hpen9 : specPenalty
      [{severity := some "critical"}, {severity := some "critical"},
       {severity := some "warning"}, {severity := some "warning"},
       {severity := some "warning"}] = 9 := by
    simp [specPenalty, List.filter]
    norm_num
  have hpen0 : specPenalty ([] : List Finding) = 0 := by
    simp [specPenalty]
  refine ⟨fun findings stats => ⟨hoverall findings stats, hgrade findings stats⟩,
    fun stats => ⟨?_, ?_⟩, fun stats => ⟨?_, ?_⟩⟩
  · rw [hoverall]
    simp only [specOverall, hpen9]
    norm_num [round_eq]
  · rw [hgrade]
    simp only [specOverall, hpen9]
    norm_num [round_eq, specGrade]
  · rw [hoverall]
    simp only [specOverall, hpen0]
    norm_num
  · rw [hgrade]
    simp only [specOverall, hpen0]
    norm_num [specGrade]

/-- C8: the health scorer is deterministic and order-independent — scoring any
permutation of the finding list gives exactly the same `HealthScore` value
(overall, letter grade and breakdown). -/
theorem c8_health_score_perm (l1 l2 : List Finding) (stats : Stats)
    (h : l1.Perm l2) :
    compute_health_score l1 stats = compute_health_score l2 stats := by
  simp only [compute_health_score]
  rw [perm_filter_length h (fun f => f.severity = some "critical"),
      perm_filter_length h (fun f => f.severity = some "warning"),
      perm_filter_length h (fun f => f.severity = some "info"),
      perm_filter_length h (fun f => f.agent = some "pattern"),
      perm_filter_length h (fun f => strContains (f.type.getD "") "architecture"),
      perm_any h (fun f => f.agent = some "pattern"),
      perm_any h (fun f => strContains (f.type.getD "") "architecture")]

/-- Witness for C8 at a concrete permutation: swapping a critical and a
warning finding leaves the score unchanged. -/
theorem c8_health_score_perm_witness :
    compute_health_score
      [{severity := some "critical"}, {severity := some "warning"}] {}
    = compute_health_score
      [{severity := some "warning"}, {severity := some "critical"}] {} :=
  c8_health_score_perm
    [{severity := some "critical"}, {severity := some "warning"}]
    [{severity := some "warning"}, {severity := some "critical"}] {}
    (List.Perm.swap _ _ _)

/-!
## Finding aggregation (`_merge_findings`, claim C7)
-/

/-- One element of a stage-output list as seen by `_merge_findings`: either a
dict (embedded as a `Finding`, whose `id` field records whether the `"id"` key
is present) or a non-dict value. -/
inductive MergeItem where
  | dict (f : Finding)
  | nondict
  deriving Repr, DecidableEq

/-- One positional argument of `_merge_findings(*sources)`: a list, or a
non-list value (e.g. the dict returned by the `_deep_research` fallback). -/
inductive MergeSrc where
  | lst (items : List MergeItem)
  | nonlist
  deriving Repr, DecidableEq

/-- `_merge_findings(*sources)` (pipeline.py:1511-1519): two nested `for`
loops appending, in argument order, every dict item that has an `"id"` key;
non-list sources and non-dict items are skipped. -/
def merge_findings (sources : List MergeSrc) : List Finding :=
  sources.foldl
    (fun all_f src =>
      match src with
      | MergeSrc.lst items =>
          items.foldl
            (fun acc item =>
              match item with
              | MergeItem.dict f => if f.id.isSome then acc ++ [f] else acc
              | MergeItem.nondict => acc)
            all_f
      | MergeSrc.nonlist => all_f)
    []

/-- Spec-side description: the entries of one stage output that carry an id,
in their original order. -/
def keptEntries : MergeSrc → List Finding
  | MergeSrc.lst items =>
      items.filterMap (fun item =>
        match item with
        | MergeItem.dict f => if f.id.isSome then some f else none
        | MergeItem.nondict => none)
  | MergeSrc.nonlist => []

theorem merge_findings_inner (items : List MergeItem) (acc : List Finding) :
    items.foldl
      (fun acc item =>
        match item with
        | MergeItem.dict f => if f.id.isSome then acc ++ [f] else acc
        | MergeItem.nondict => acc)
      acc
    = acc ++ keptEntries (MergeSrc.lst items) := by
  induction items generalizing acc with
  | nil => simp [keptEntries]
  | cons hd tl ih =>
    cases hd with
    | dict f =>
      by_cases h : f.id.isSome <;>
        simp [keptEntries, List.filterMap_cons, h, ih, List.foldl_cons]
    | nondict =>
      simp only [List.foldl_cons]
      rw [ih]
      simp [keptEntries, List.filterMap_cons]

theorem merge_findings_outer (sources : List MergeSrc) (acc : List Finding) :
    sources.foldl
      (fun all_f src =>
        match src with
        | MergeSrc.lst items =>
            items.foldl
              (fun acc item =>
                match item with
                | MergeItem.dict f => if f.id.isSome then acc ++ [f] else acc
                | MergeItem.nondict => acc)
              all_f
        | MergeSrc.nonlist => all_f)
      acc
    = acc ++ (sources.map keptEntries).flatten := by
  induction sources generalizing acc with
  | nil => simp
  | cons hd tl ih =>
    cases hd with
    | lst items =>
      simp only [List.foldl_cons]
      rw [merge_findings_inner, ih]
      simp [List.append_assoc]
    | nonlist =>
      simp only [List.foldl_cons]
      rw [ih]
      simp [keptEntries]

/-- C7: `_merge_findings` returns exactly the flattening, in argument order,
of the id-carrying entries of its list-valued stage outputs; id-less or
non-dict entries are dropped, nothing else is deduplicated (so duplicate ids
from different stages are all retained, being distinct positions of the
flattening). -/
theorem c7_merge_flattening (sources : List MergeSrc) :
    merge_findings sources = (sources.map keptEntries).flatten := by
  simpa using merge_findings_outer sources []

end Pipeline

namespace ToolLogger

/-- A JSON-serialisable Python value, as handled by `_safe_json`/`_truncate`
(tool_logger.py:49-65). -/
inductive PyVal where
  | str (s : String)
  | num (n : Int)
  | dict (kvs : List (String × PyVal))
  | list (xs : List PyVal)
  | none_

mutual

/-- `_truncate(obj, max_str_len=4000)` (tool_logger.py:58-65): strings are cut
to `max_str_len`, dict values are truncated recursively, lists are cut to 200
elements with each element truncated. -/
def pyTruncate (maxStrLen : Nat) : PyVal → PyVal
  | PyVal.str s => if s.length > maxStrLen then PyVal.str (s.take maxStrLen) else PyVal.str s
  | PyVal.dict kvs => PyVal.dict (pyTruncatePairs maxStrLen kvs)
  | PyVal.list xs => PyVal.list (pyTruncateSlice maxStrLen 200 xs)
  | v => v

/-- `{k: _truncate(v) for k, v in obj.items()}`. -/
def pyTruncatePairs (maxStrLen : Nat) : List (String × PyVal) → List (String × PyVal)
  | [] => []
  | (k, v) :: rest => (k, pyTruncate maxStrLen v) :: pyTruncatePairs maxStrLen rest

/-- `[_truncate(v) for v in obj[:n]]`. -/
def pyTruncateSlice (maxStrLen : Nat) : Nat → List PyVal → List PyVal
  | 0, _ => []
  | _, [] => []
  | Nat.succ n, v :: rest => pyTruncate maxStrLen v :: pyTruncateSlice maxStrLen n rest

end

/-- Python `str(obj)` for the scalar values that can reach the `_raw` branch
of `_safe_json`. -/
def pyStr : PyVal → String
  | PyVal.str s => s
  | PyVal.num n => toString n
  | _ => "None"

/-- `_safe_json(obj)` (tool_logger.py:49-55): `None` passes through, dicts and
lists are truncated, anything else is wrapped as `{"_raw": str(obj)[:4000]}`. -/
def safe_json : Option PyVal → Option PyVal
  | none => none
  | some (PyVal.dict kvs) => some (pyTruncate 4000 (PyVal.dict kvs))
  | some (PyVal.list xs) => some (pyTruncate 4000 (PyVal.list xs))
  | some v => some (PyVal.dict [("_raw", PyVal.str ((pyStr v).take 4000))])

/-- A row of the `tool_calls` table (the `ToolCall` model constructed at
tool_logger.py:29-39). -/
structure ToolCallRec where
  analysis_id : String
  tool_name : String
  step_name : String
  endpoint : String
  request_payload : Option PyVal
  response_payload : Option PyVal
  latency_ms : Option Int
  status : String
  error_message : Option String

/-- A raised Python exception (its message). -/
structure PyErr where
  msg : String := ""
  deriving Repr, DecidableEq

/-- `log_tool_call(...)` (tool_logger.py:17-46).  The database session
`add`/`commit` is the only effect that can fail; its outcome is supplied by
the caller as `persist`.  The source wraps exactly that block in
`try/except Exception`, logs the failure, and falls through to `return tc`,
so the embedding returns `Except.ok` on both branches of the match — a
persistence error never escapes. -/
def log_tool_call (persist : ToolCallRec → Except PyErr Unit)
    (analysis_id tool_name step_name endpoint : String)
    (request_payload response_payload : Option PyVal)
    (latency_ms : Option Int) (status : String)
    (error_message : Option String) : Except PyErr ToolCallRec :=
  let tc : ToolCallRec :=
    { analysis_id := analysis_id
      tool_name := tool_name
      step_name := step_name
      endpoint := endpoint
      request_payload := safe_json request_payload
      response_payload := safe_json response_payload
      latency_ms := latency_ms
      status := status
      error_message := error_message }
  match persist tc with
  | Except.ok _ => Except.ok tc
  | Except.error _ => Except.ok tc

/-- C9: for every input and every outcome of the persistence attempt, the
audit logger returns normally (an `ok` record); a failure to persist the
audit record is caught inside `log_tool_call` and never propagates to the
invoking stage.  The returned record is moreover independent of whether
persistence succeeded. -/
theorem c9_log_tool_call_total
    (persist : ToolCallRec → Except PyErr Unit)
    (analysis_id tool_name step_name endpoint : String)
    (request_payload response_payload : Option PyVal)
    (latency_ms : Option Int) (status : String)
    (error_message : Option String) :
    log_tool_call persist analysis_id tool_name step_name endpoint
        request_payload response_payload latency_ms status error_message
      = Except.ok
          { analysis_id := analysis_id
            tool_name := tool_name
            step_name := step_name
            endpoint := endpoint
            request_payload := safe_json request_payload
            response_payload := safe_json response_payload
            latency_ms := latency_ms
            status := status
            error_message := error_message } := by
  simp only [log_tool_call]
  cases persist _ <;> rfl

end ToolLogger

namespace PyStr

/-!
## Python string splitting and joining

`_build_neo4j_graph` manipulates paths with `s.split("/")`, `"/".join(...)`
and `s[-1]`/`[:-1]`.  We embed `split`/`join` for a single-character
separator directly on character lists so that their algebra is provable.
-/

/-- `s.split(sep)` on the character list of `s`: `n` occurrences of `sep`
yield `n+1` chunks, empty chunks included (Python semantics for a non-empty
separator). -/
def splitCharList (sep : Char) : List Char → List (List Char)
  | [] => [[]]
  | c :: cs =>
      match splitCharList sep cs with
      | [] => [[c]]
      | hd :: tl => if c = sep then [] :: hd :: tl else (c :: hd) :: tl

/-- Python `s.split(sep)` for a one-character separator. -/
def pySplit (sep : Char) (s : String) : List String :=
  (splitCharList sep s.data).map (fun l => String.mk l)

/-- Python `"/".join(parts)`. -/
def pyJoin : List String → String
  | [] => ""
  | [x] => x
  | x :: xs => x ++ "/" ++ pyJoin xs

theorem splitCharList_ne_nil (sep : Char) (l : List Char) :
    splitCharList sep l ≠ [] := by
  cases l with
  | nil => simp [splitCharList]
  | cons c cs =>
    simp only [splitCharList]
    rcases h : splitCharList sep cs with _ | ⟨hd, tl⟩
    · simp
    · by_cases hc : c = sep <;> simp [hc]

theorem pySplit_ne_nil (sep : Char) (s : String) : pySplit sep s ≠ [] := by
  simp only [pySplit, ne_eq, List.map_eq_nil_iff]
  exact splitCharList_ne_nil sep s.data

/-- Chunks produced by `splitCharList` never contain the separator. -/
theorem splitCharList_not_mem (sep : Char) (l : List Char) :
    ∀ part ∈ splitCharList sep l, sep ∉ part := by
  induction l with
  | nil => simp [splitCharList]
  | cons c cs ih =>
    intro part hp
    rcases h : splitCharList sep cs with _ | ⟨hd, tl⟩
    · exact absurd h (splitCharList_ne_nil sep cs)
    · simp only [splitCharList, h] at hp
      by_cases hc : c = sep
      · rw [if_pos hc] at hp
        rcases List.mem_cons.1 hp with rfl | hp2
        · simp
        · exact ih part (h ▸ hp2)
      · rw [if_neg hc] at hp
        rcases List.mem_cons.1 hp with rfl | hp2
        · intro hmem
          rcases List.mem_cons.1 hmem with h1 | h1
          · exact hc h1.symm
          · exact ih hd (by rw [h]; exact List.mem_cons_self _ _) h1
        · exact ih part (by rw [h]; exact List.mem_cons_of_mem _ hp2)

/-- `splitCharList` on `chunk ++ sep :: rest` when `chunk` is separator-free. -/
theorem splitCharList_append (sep : Char) (x rest : List Char) (hx : sep ∉ x) :
    splitCharList sep (x ++ sep :: rest) = x :: splitCharList sep rest := by
  induction x with
  | nil =>
    simp only [List.nil_append, splitCharList]
    rcases h : splitCharList sep rest with _ | ⟨hd, tl⟩
    · exact absurd h (splitCharList_ne_nil sep rest)
    · simp
  | cons c cs ih =>
    have hc : c ≠ sep := fun h => hx (h ▸ List.mem_cons_self c cs)
    have hcs : sep ∉ cs := fun h => hx (List.mem_cons_of_mem c h)
    simp only [List.cons_append, splitCharList, List.append_eq]
    rw [ih hcs]
    simp [hc]

/-- Splitting on a separator-free list gives a single chunk. -/
theorem splitCharList_single (sep : Char) (x : List Char) (hx : sep ∉ x) :
    splitCharList sep x = [x] := by
  induction x with
  | nil => simp [splitCharList]
  | cons c cs ih =>
    have hc : c ≠ sep := fun h => hx (h ▸ List.mem_cons_self c cs)
    have hcs : sep ∉ cs := fun h => hx (List.mem_cons_of_mem c h)
    simp [splitCharList, ih hcs, hc]

theorem mk_data (s : String) : String.mk s.data = s := by cases s; rfl

/-- Parts of a `pySplit` never contain the separator. -/
theorem pySplit_not_contains (sep : Char) (s : String) :
    ∀ part ∈ pySplit sep s, sep ∉ part.data := by
  intro part hp
  simp only [pySplit, List.mem_map] at hp
  obtain ⟨l, hl, rfl⟩ := hp
  exact splitCharList_not_mem sep s.data l hl

/-- Splitting a join of separator-free parts recovers the parts. -/
theorem pySplit_pyJoin (parts : List String) (hne : parts ≠ [])
    (hfree : ∀ p ∈ parts, '/' ∉ p.data) :
    pySplit '/' (pyJoin parts) = parts := by
  induction parts with
  | nil => exact absurd rfl hne
  | cons x xs ih =>
    cases xs with
    | nil =>
      simp only [pyJoin, pySplit]
      rw [splitCharList_single '/' x.data (hfree x (by simp))]
      simp [mk_data]
    | cons y ys =>
      have hx : '/' ∉ x.data := hfree x (by simp)
      have hrest : ∀ p ∈ y :: ys, '/' ∉ p.data :=
        fun p hp => hfree p (List.mem_cons_of_mem x hp)
      simp only [pyJoin, pySplit]
      have hslash : ("/" : String).data = ['/'] := rfl
      have hdata : (x ++ "/" ++ pyJoin (y :: ys)).data
          = x.data ++ '/' :: (pyJoin (y :: ys)).data := by
        rw [String.data_append, String.data_append, hslash, List.append_assoc]
        rfl
      rw [hdata, splitCharList_append '/' x.data _ hx]
      simp only [List.map_cons, mk_data]
      have := ih (by simp)
      simp only [pySplit] at this
      rw [this hrest]

/-- `parent = "/".join(dir_path.split("/")[:-1]) or "/"`
(pipeline.py:1582). -/
def parentPathPy (p : String) : String :=
  let j := pyJoin ((pySplit '/' p).dropLast)
  if j = "" then "/" else j

/-- Termination measure for the recursive directory creation: the number of
path components, with the root counted as 0. -/
def dirMeasure (p : String) : Nat :=
  if p = "/" then 0 else (pySplit '/' p).length

theorem dirMeasure_root : dirMeasure "/" = 0 := by simp [dirMeasure]

theorem dirMeasure_parent_lt (p : String) (hp : p ≠ "/") :
    dirMeasure (parentPathPy p) < dirMeasure p := by
  have hne : pySplit '/' p ≠ [] := pySplit_ne_nil '/' p
  have hpos : 0 < (pySplit '/' p).length := List.length_pos.2 hne
  have hmp : dirMeasure p = (pySplit '/' p).length := by simp [dirMeasure, hp]
  rw [hmp]
  by_cases hj : pyJoin ((pySplit '/' p).dropLast) = ""
  · have h1 : parentPathPy p = "/" := by simp [parentPathPy, hj]
    rw [h1, dirMeasure_root]
    exact hpos
  · have h1 : parentPathPy p = pyJoin ((pySplit '/' p).dropLast) := by
      simp [parentPathPy, hj]
    have hdne : (pySplit '/' p).dropLast ≠ [] := by
      intro h
      exact hj (by rw [h]; rfl)
    have hfree : ∀ q ∈ (pySplit '/' p).dropLast, '/' ∉ q.data :=
      fun q hq => pySplit_not_contains '/' p q (List.dropLast_subset _ hq)
    have hsplit : pySplit '/' (pyJoin ((pySplit '/' p).dropLast))
        = (pySplit '/' p).dropLast := pySplit_pyJoin _ hdne hfree
    rw [h1]
    by_cases hroot : pyJoin ((pySplit '/' p).dropLast) = "/"
    · rw [hroot, dirMeasure_root]
      exact hpos
    · have h2 : dirMeasure (pyJoin ((pySplit '/' p).dropLast))
          = ((pySplit '/' p).dropLast).length := by
        simp [dirMeasure, hroot, hsplit]
      rw [h2, List.length_dropLast]
      exact Nat.sub_lt hpos Nat.one_pos

end PyStr

namespace GraphBuild

open Pipeline PyStr

/-!
## The knowledge-graph builder (`_build_neo4j_graph`, pipeline.py:1562-1692)

The node/edge construction is pure and is embedded exactly; the Neo4j side is
embedded as the list of write calls the builder issues when
`is_connected()` holds.  The per-write `try/except: pass` of the source means
a failing write is skipped silently; the write list below is the sequence of
attempted calls when no individual write raises, which is the only case the
claims quantify over.
-/

/-- A file entry of `metadata["files"]` (pipeline.py:316-323). -/
structure FileMeta where
  path : String
  name : String
  extension : String := ""
  language : String := ""
  lines : Nat := 0
  category : String := "unknown"
  deriving Repr, DecidableEq

/-- A dependency entry of `metadata["dependencies"]`. -/
structure Dep where
  name : String
  version : String
  is_dev : Bool := false
  deriving Repr, DecidableEq

/-- The `detected_stack` sub-dict of the metadata (built by the ingestor,
read by the best-practices stages). -/
structure DetectedStack where
  languages : List String := []
  frameworks : List String := []
  deriving Repr, DecidableEq

/-- The metadata dict fields read by the graph builder and the stages. -/
structure Metadata where
  files : List FileMeta := []
  dependencies : List Dep := []
  stats : Stats := {}
  detected_stack : DetectedStack := {}
  deriving Repr, DecidableEq

/-- A graph node dict. Fields that only some node types populate carry
defaults (`metadata` sub-dict of package nodes is flattened into
`metaName`/`metaVersion`/`metaIsDev`). -/
structure GNode where
  id : String
  type : String
  label : String
  path : String := ""
  category : String := ""
  language : String := ""
  lines : Nat := 0
  severity : Option String := none
  findingCount : Nat := 0
  metaName : String := ""
  metaVersion : String := ""
  metaIsDev : Bool := false
  deriving Repr, DecidableEq

/-- A graph edge dict. -/
structure GEdge where
  id : String
  source : String
  target : String
  type : String
  isVulnerabilityChain : Bool := false
  deriving Repr, DecidableEq

/-- The builder's mutable state: the `nodes` and `edges` lists and the
`dir_nodes` path→id memo map (insertion-ordered, keys unique). -/
structure BuildState where
  nodes : List GNode := []
  edges : List GEdge := []
  dirNodes : List (String × String) := []
  deriving Repr, DecidableEq

/-- Python `s.replace(a, b)` for one-character `a`, `b`. -/
def replaceChar (a b : Char) (s : String) : String :=
  String.mk (s.data.map (fun c => if c = a then b else c))

/-- `_safe_id(s)` (pipeline.py:1570-1571):
`s.replace("/", "_").replace(".", "_").replace("-", "_").replace(" ", "_")`. -/
def safe_id (s : String) : String :=
  replaceChar ' ' '_' (replaceChar '-' '_' (replaceChar '.' '_' (replaceChar '/' '_' s)))

/-- Id of the synthetic root directory node. -/
def rootId (aid : String) : String := "dir_" ++ aid ++ "_root"

/-- `nid` as computed in `ensure_dir` (pipeline.py:1577). -/
def dirId (aid p : String) : String :=
  if p = "/" then rootId aid else "dir_" ++ aid ++ "_" ++ safe_id p

/-- `fid` as computed per file (pipeline.py:1594). -/
def fileId (aid p : String) : String := "file_" ++ aid ++ "_" ++ safe_id p

/-- `pid` as computed per dependency (pipeline.py:1623). -/
def pkgId (aid nm : String) : String :=
  "pkg_" ++ aid ++ "_" ++ replaceChar '/' '_' nm

/-- The directory node dict appended by `ensure_dir` (pipeline.py:1578-1579). -/
def dirNodeOf (aid p : String) : GNode :=
  let label0 := if p = "/" then "/" else (pySplit '/' p).getLast?.getD ""
  { id := dirId aid p
    type := "directory"
    label := if label0 = "" then "/" else label0
    path := p }

/-- `ensure_dir(dir_path)` (pipeline.py:1573-1589): memoized recursive
creation of a directory node, its ancestor chain, and one `contains` edge per
newly created parent→child directory link. -/
def ensureDir (aid : String) (st : BuildState) (dirPath : String) :
    BuildState × String :=
  match st.dirNodes.lookup dirPath with
  | some nid => (st, nid)
  | none =>
      let nid := dirId aid dirPath
      let st1 : BuildState :=
        { st with
          nodes := st.nodes ++ [dirNodeOf aid dirPath]
          dirNodes := st.dirNodes ++ [(dirPath, nid)] }
      if _h : dirPath = "/" then (st1, nid)
      else
        let res := ensureDir aid st1 (parentPathPy dirPath)
        ({ res.1 with
            edges := res.1.edges ++
              [{ id := "edge_" ++ res.2 ++ "_" ++ nid
                 source := res.2
                 target := nid
                 type := "contains" }] },
         nid)
termination_by dirMeasure dirPath
decreasing_by exact dirMeasure_parent_lt dirPath _h

/-- The file node dict (pipeline.py:1593-1612): finding count, dominant
severity, and metadata copied from the file entry. -/
def fileNodeOf (aid : String) (findings : List Finding) (f : FileMeta) : GNode :=
  let relevant := findings.filter
    (fun fd => ((fd.location.getD {}).files).contains f.path)
  let finding_count := relevant.length
  let severities := relevant.map (fun fd => fd.severity)
  let severity : Option String :=
    if finding_count ≠ 0 then
      some (if severities.contains (some "critical") then "critical"
        else if severities.contains (some "warning") then "warning"
        else "healthy")
    else none
  { id := fileId aid f.path
    type := "file"
    label := f.name
    path := f.path
    category := f.category
    language := f.language
    lines := f.lines
    severity := severity
    findingCount := finding_count }

/-- One iteration of the `for f in metadata.get("files", [])[:200]` loop
(pipeline.py:1593-1619): append the file node, ensure its parent directory
chain, append the parent→file `contains` edge. -/
def fileStep (aid : String) (findings : List Finding) (st : BuildState)
    (f : FileMeta) : BuildState :=
  let fid := fileId aid f.path
  let st1 := { st with nodes := st.nodes ++ [fileNodeOf aid findings f] }
  let res := ensureDir aid st1 (parentPathPy f.path)
  { res.1 with
    edges := res.1.edges ++
      [{ id := "edge_" ++ res.2 ++ "_" ++ fid
         source := res.2
         target := fid
         type := "contains" }] }

/-- The package node dict (pipeline.py:1622-1630). -/
def pkgNodeOf (aid : String) (d : Dep) : GNode :=
  { id := pkgId aid d.name
    type := "package"
    label := d.name ++ "@" ++ d.version
    findingCount := 0
    metaName := d.name
    metaVersion := d.version
    metaIsDev := d.is_dev }

/-- The pure node/edge construction of `_build_neo4j_graph`
(pipeline.py:1566-1630): root directory, first 200 files with their directory
chains and `contains` edges, first 50 dependencies as package nodes. -/
def buildState (aid : String) (metadata : Metadata) (findings : List Finding) :
    BuildState :=
  let st0 := (ensureDir aid {} "/").1
  let st1 := (metadata.files.take 200).foldl (fileStep aid findings) st0
  { st1 with
    nodes := st1.nodes ++ (metadata.dependencies.take 50).map (pkgNodeOf aid) }

/-- The `{"nodes": ..., "edges": ...}` dict returned by the builder. -/
structure Graph where
  nodes : List GNode
  edges : List GEdge
  deriving Repr, DecidableEq

/-- One write call the builder issues against the Neo4j service
(neo4j.py write helpers). -/
inductive NeoWrite where
  | fileNode (aid id path language : String) (lines : Nat) (category : String)
      (findingCount : Nat) (severity : Option String)
  | directoryNode (aid id path : String)
  | packageNode (aid id nm version : String) (isDev : Bool)
      (findingCount : Nat) (severity : Option String)
  | edge (aid id source target type : String)
  | findingNode (aid id title severity ftype agent description : String)
  | affectsEdge (aid findingId nodeId : String)
  | cveNode (aid id : String) (cvssScore : Option Rat)
      (description fixedVersion : String)
  | hasCveEdge (aid findingId cveId : String)
  | fixNode (aid id title : String) (priority : Int) (findingId : String)
  deriving Repr, DecidableEq

/-- The write issued for one node of the `for n in nodes` loop
(pipeline.py:1634-1656); node types other than file/directory/package issue
none. -/
def nodeWriteOf (aid : String) (n : GNode) : Option NeoWrite :=
  if n.type = "file" then
    some (NeoWrite.fileNode aid n.id n.path n.language n.lines n.category
      n.findingCount n.severity)
  else if n.type = "directory" then
    some (NeoWrite.directoryNode aid n.id n.path)
  else if n.type = "package" then
    let pkg_name :=
      if n.metaName ≠ "" then n.metaName
      else if strContains n.label "@" then (pySplit '@' n.label).headD ""
      else n.label
    some (NeoWrite.packageNode aid n.id pkg_name n.metaVersion n.metaIsDev
      n.findingCount n.severity)
  else none

/-- The file-node id used by the `affects` edge loop (pipeline.py:1677):
note it sanitizes only `/` and `.`, unlike `_safe_id`. -/
def affectsTargetId (aid loc_file : String) : String :=
  "file_" ++ aid ++ "_" ++ replaceChar '.' '_' (replaceChar '/' '_' loc_file)

/-- `cve_id` as read at pipeline.py:1679:
`(fd.get("cve") or {}).get("id") if isinstance(fd.get("cve"), dict) else fd.get("cve_id")`. -/
def cveIdOf (fd : Finding) : Option String :=
  match fd.cve with
  | some c => some c.id
  | none => fd.cve_id

/-- The description passed to `write_finding_node` (pipeline.py:1674):
`fd.get("description", "") or fd.get("plain_description", "")`. -/
def findingDescr (fd : Finding) : String :=
  if (fd.description.getD "") ≠ "" then fd.description.getD ""
  else fd.plain_description.getD ""

/-- The writes issued for one finding of the `for fd in findings` loop
(pipeline.py:1663-1690): a finding node, one `affects` edge per referenced
file (first 20), and CVE node + `has_cve` edge when a CVE id is present.
A finding whose id is missing or empty is skipped: `fid = fd.get("id");
if not fid: continue` (pipeline.py:1665-1666) tests Python falsiness, so
`None` and `""` both skip. -/
def findingWrites (aid : String) (fd : Finding) : List NeoWrite :=
  match fd.id with
  | none => []
  | some fid =>
      if fid = "" then []
      else
        [NeoWrite.findingNode aid fid ((fd.title.getD "").take 500)
          (fd.severity.getD "info") (fd.type.getD "finding")
          (fd.agent.getD "unknown") (findingDescr fd)]
        ++ (((fd.location.getD {}).files).take 20).map
            (fun loc_file => NeoWrite.affectsEdge aid fid (affectsTargetId aid loc_file))
        ++ (match cveIdOf fd with
            | some cid =>
                if cid ≠ "" then
                  [NeoWrite.cveNode aid ("cve_" ++ aid ++ "_" ++ cid)
                      (match fd.cve with | some c => c.cvssScore | none => none)
                      (match fd.cve with | some c => c.description | none => "")
                      (match fd.cve with | some c => c.fixedVersion | none => ""),
                   NeoWrite.hasCveEdge aid fid ("cve_" ++ aid ++ "_" ++ cid)]
                else []
            | none => [])

/-- `findingWrites` unfolded for a finding carrying a non-empty id. -/
theorem findingWrites_some (aid : String) (fd : Finding) (fid : String)
    (h : fd.id = some fid) (hne : fid ≠ "") :
    findingWrites aid fd
      = [NeoWrite.findingNode aid fid ((fd.title.getD "").take 500)
          (fd.severity.getD "info") (fd.type.getD "finding")
          (fd.agent.getD "unknown") (findingDescr fd)]
        ++ (((fd.location.getD {}).files).take 20).map
            (fun loc_file => NeoWrite.affectsEdge aid fid (affectsTargetId aid loc_file))
        ++ (match cveIdOf fd with
            | some cid =>
                if cid ≠ "" then
                  [NeoWrite.cveNode aid ("cve_" ++ aid ++ "_" ++ cid)
                      (match fd.cve with | some c => c.cvssScore | none => none)
                      (match fd.cve with | some c => c.description | none => "")
                      (match fd.cve with | some c => c.fixedVersion | none => ""),
                   NeoWrite.hasCveEdge aid fid ("cve_" ++ aid ++ "_" ++ cid)]
                else []
            | none => []) := by
  unfold findingWrites
  rw [h]
  dsimp only
  rw [if_neg hne]

/-- `_build_neo4j_graph(analysis_id, metadata, findings)` with the
reachability of the backend (`await neo4j_service.is_connected()`) supplied
as `connected`: returns the graph dict and the list of write calls issued
(empty when the backend is unreachable — the graph dict is then the JSON
snapshot persisted on the `Analysis` record). -/
def build_neo4j_graph (aid : String) (metadata : Metadata)
    (findings : List Finding) (connected : Bool) : Graph × List NeoWrite :=
  let st := buildState aid metadata findings
  let writes :=
    if connected then
      st.nodes.filterMap (nodeWriteOf aid)
      ++ st.edges.map (fun e => NeoWrite.edge aid e.id e.source e.target e.type)
      ++ findings.flatMap (findingWrites aid)
    else []
  ({ nodes := st.nodes, edges := st.edges }, writes)

/-!
### Association-list helper lemmas for the `dir_nodes` memo map
-/

theorem lookup_eq_none_iff {β : Type} (l : List (String × β)) (k : String) :
    l.lookup k = none ↔ ∀ pr ∈ l, pr.1 ≠ k := by
  induction l with
  | nil => simp [List.lookup]
  | cons hd tl ih =>
    simp only [List.lookup]
    by_cases h : k = hd.1
    · simp only [h]
      constructor
      · intro hc
        rw [show (hd.1 == hd.1) = true by simp] at hc
        cases hc
      · intro hall
        exact absurd rfl (hall hd (List.mem_cons_self _ _))
    · rw [show (k == hd.1) = false by simpa using fun hh => h hh]
      simp only []
      rw [ih]
      constructor
      · intro hall pr hpr
        rcases List.mem_cons.1 hpr with rfl | hpr2
        · exact fun he => h he.symm
        · exact hall pr hpr2
      · intro hall pr hpr
        exact hall pr (List.mem_cons_of_mem _ hpr)

theorem lookup_mem {β : Type} (l : List (String × β)) (k : String) (v : β)
    (h : l.lookup k = some v) : (k, v) ∈ l := by
  induction l with
  | nil => simp [List.lookup] at h
  | cons hd tl ih =>
    simp only [List.lookup] at h
    by_cases hk : k = hd.1
    · rw [show (k == hd.1) = true by simpa using hk] at h
      simp only [Option.some.injEq] at h
      subst h
      subst hk
      exact List.mem_cons_self _ _
    · rw [show (k == hd.1) = false by simpa using fun hh => hk hh] at h
      exact List.mem_cons_of_mem _ (ih h)

/-- The ancestor chain of a directory path: the path itself, its parent, and
so on up to the root. -/
def ancestorChainPy (p : String) : List String :=
  if _h : p = "/" then ["/"]
  else p :: ancestorChainPy (parentPathPy p)
termination_by dirMeasure p
decreasing_by exact dirMeasure_parent_lt p _h

theorem mem_ancestorChainPy_self (p : String) : p ∈ ancestorChainPy p := by
  rw [ancestorChainPy]
  by_cases h : p = "/" <;> simp [h]

theorem ancestorChainPy_measure_le (p : String) :
    ∀ q ∈ ancestorChainPy p, dirMeasure q ≤ dirMeasure p := by
  induction p using ancestorChainPy.induct with
  | case1 =>
    rw [ancestorChainPy]
    intro q hq
    simp only [dif_pos] at hq
    simp only [List.mem_singleton] at hq
    exact le_of_eq (by rw [hq])
  | case2 p hp ih =>
    rw [ancestorChainPy]
    simp only [dif_neg hp]
    intro q hq
    rcases List.mem_cons.1 hq with rfl | hq2
    · exact le_refl _
    · exact le_of_lt (lt_of_le_of_lt (ih q hq2) (dirMeasure_parent_lt p hp))

theorem ancestorChainPy_parent_subset (p : String) (hp : p ≠ "/") :
    ∀ q ∈ ancestorChainPy (parentPathPy p), q ∈ ancestorChainPy p := by
  intro q hq
  rw [ancestorChainPy]
  simp [dif_neg hp, hq]

/-- Full specification of one `ensure_dir` call: it appends a (possibly
empty) block of directory nodes, map entries and `contains` edges; every new
map entry carries the deterministic `dirId` of an ancestor of `dirPath` that
was not yet memoized, new keys are distinct, every new edge is a `contains`
edge between memoized directory ids whose target is one of the new
directories, and the requested path ends up memoized with the returned id. -/
theorem ensureDir_spec (aid : String) (st : BuildState) (dirPath : String) :
    ∃ newN newE newD,
      (ensureDir aid st dirPath).1.nodes = st.nodes ++ newN ∧
      (ensureDir aid st dirPath).1.edges = st.edges ++ newE ∧
      (ensureDir aid st dirPath).1.dirNodes = st.dirNodes ++ newD ∧
      newN.map (fun n => (n.path, n.id)) = newD ∧
      (∀ n ∈ newN, n.type = "directory") ∧
      (∀ pr ∈ newD, pr.2 = dirId aid pr.1 ∧ pr.1 ∈ ancestorChainPy dirPath ∧
        pr.1 ∉ st.dirNodes.map Prod.fst ∧ dirMeasure pr.1 ≤ dirMeasure dirPath) ∧
      (newD.map Prod.fst).Nodup ∧
      (∀ e ∈ newE, e.type = "contains" ∧
        e.id = "edge_" ++ e.source ++ "_" ++ e.target ∧
        (∃ pr ∈ (ensureDir aid st dirPath).1.dirNodes, e.source = pr.2) ∧
        (∃ pr ∈ newD, e.target = pr.2)) ∧
      ((newE.map (fun e => e.target)).Perm
        ((newD.filter (fun pr => ¬ pr.1 = "/")).map Prod.snd)) ∧
      (dirPath, (ensureDir aid st dirPath).2) ∈ (ensureDir aid st dirPath).1.dirNodes := by
  induction st, dirPath using ensureDir.induct aid with
  | case1 st dirPath nid h =>
    refine ⟨[], [], [], ?_⟩
    have hunfold : ensureDir aid st dirPath = (st, nid) := by
      rw [ensureDir]
      simp [h]
    rw [hunfold]
    refine ⟨by simp, by simp, by simp, rfl, by simp, by simp, by simp, by simp,
      by simp, ?_⟩
    exact lookup_mem _ _ _ h
  | case2 st h =>
    refine ⟨[dirNodeOf aid "/"], [], [("/", dirId aid "/")], ?_⟩
    have hunfold : ensureDir aid st "/"
        = ({ st with
              nodes := st.nodes ++ [dirNodeOf aid "/"]
              dirNodes := st.dirNodes ++ [("/", dirId aid "/")] },
           dirId aid "/") := by
      rw [ensureDir]
      simp [h]
    rw [hunfold]
    refine ⟨rfl, by simp, rfl, by simp [dirNodeOf], by simp [dirNodeOf], ?_,
      by simp, by simp, by simp, ?_⟩
    · intro pr hpr
      simp only [List.mem_singleton] at hpr
      subst hpr
      refine ⟨rfl, mem_ancestorChainPy_self "/", ?_, le_refl _⟩
      intro hmem
      simp only [List.mem_map] at hmem
      obtain ⟨pr2, hpr2, hfst⟩ := hmem
      exact (lookup_eq_none_iff _ _ |>.1 h) pr2 hpr2 hfst
    · simp
  | case3 st dirPath h nid st1 hp ih =>
    obtain ⟨newN, newE, newD, hN, hE, hD, hpair, htypes, hDfacts, hDnodup,
      hEfacts, hEperm, hret⟩ := ih
    refine ⟨dirNodeOf aid dirPath :: newN,
      newE ++ [{ id := "edge_" ++ (ensureDir aid st1 (parentPathPy dirPath)).2
                    ++ "_" ++ nid
                 source := (ensureDir aid st1 (parentPathPy dirPath)).2
                 target := nid
                 type := "contains" }],
      (dirPath, nid) :: newD, ?_⟩
    have hkey : dirPath ∉ st.dirNodes.map Prod.fst := by
      intro hmem
      simp only [List.mem_map] at hmem
      obtain ⟨pr2, hpr2, hfst⟩ := hmem
      exact (lookup_eq_none_iff _ _ |>.1 h) pr2 hpr2 hfst
    have hst1nodes : st1.nodes = st.nodes ++ [dirNodeOf aid dirPath] := rfl
    have hst1edges : st1.edges = st.edges := rfl
    have hst1dir : st1.dirNodes = st.dirNodes ++ [(dirPath, nid)] := rfl
    have hunfold :
        ensureDir aid st dirPath
        = ({ (ensureDir aid st1 (parentPathPy dirPath)).1 with
              edges := (ensureDir aid st1 (parentPathPy dirPath)).1.edges ++
                [{ id := "edge_" ++ (ensureDir aid st1 (parentPathPy dirPath)).2
                      ++ "_" ++ nid
                   source := (ensureDir aid st1 (parentPathPy dirPath)).2
                   target := nid
                   type := "contains" }] },
           nid) := by
      rw [ensureDir]
      simp only [h, dif_neg hp]
    rw [hunfold]
    refine ⟨?_, ?_, ?_, ?_, ?_, ?_, ?_, ?_, ?_, ?_⟩
    · rw [hN, hst1nodes]
      simp
    · rw [hE, hst1edges]
      simp
    · rw [hD, hst1dir]
      simp
    · simp only [List.map_cons, hpair, dirNodeOf]
    · intro n hn
      rcases List.mem_cons.1 hn with rfl | hn2
      · rfl
      · exact htypes n hn2
    · intro pr hpr
      rcases List.mem_cons.1 hpr with rfl | hpr2
      · exact ⟨rfl, mem_ancestorChainPy_self dirPath, hkey, le_refl _⟩
      · obtain ⟨h1, h2, h3, h4⟩ := hDfacts pr hpr2
        refine ⟨h1, ancestorChainPy_parent_subset dirPath hp pr.1 h2, ?_, ?_⟩
        · intro hmem
          apply h3
          rw [hst1dir, List.map_append]
          exact List.mem_append_left _ hmem
        · exact le_of_lt (lt_of_le_of_lt h4 (dirMeasure_parent_lt dirPath hp))
    · simp only [List.map_cons]
      rw [List.nodup_cons]
      constructor
      · intro hmem
        simp only [List.map_cons, List.mem_map] at hmem
        obtain ⟨pr2, hpr2, hfst⟩ := hmem
        have h4 := (hDfacts pr2 hpr2).2.2.2
        have := dirMeasure_parent_lt dirPath hp
        rw [hfst] at h4
        omega
      · exact hDnodup
    · intro e he
      rcases List.mem_append.1 he with he2 | he2
      · obtain ⟨h1, h2, h3, h4⟩ := hEfacts e he2
        refine ⟨h1, h2, h3, ?_⟩
        obtain ⟨pr2, hpr2, htgt⟩ := h4
        exact ⟨pr2, List.mem_cons_of_mem _ hpr2, htgt⟩
      · simp only [List.mem_singleton] at he2
        subst he2
        refine ⟨rfl, rfl, ⟨(parentPathPy dirPath,
            (ensureDir aid st1 (parentPathPy dirPath)).2), hret, rfl⟩,
          ⟨(dirPath, nid), List.mem_cons_self _ _, rfl⟩⟩
    · simp only [List.map_append, List.map_cons, List.map_nil]
      have hfilter : ((dirPath, nid) :: newD).filter (fun pr => ¬ pr.1 = "/")
          = (dirPath, nid) :: newD.filter (fun pr => ¬ pr.1 = "/") := by
        rw [List.filter_cons]
        simp [hp]
      rw [hfilter]
      simp only [List.map_cons]
      exact (List.perm_append_singleton _ _).trans (List.Perm.cons _ hEperm)
    · show (dirPath, nid) ∈ (ensureDir aid st1 (parentPathPy dirPath)).1.dirNodes
      rw [hD, hst1dir]
      exact List.mem_append_left _
        (List.mem_append_right _ (List.mem_singleton_self _))

/-!
### Build-state invariants
-/

/-- Every memo-map entry carries the deterministic id of its path. -/
def Imap (aid : String) (st : BuildState) : Prop :=
  ∀ pr ∈ st.dirNodes, pr.2 = dirId aid pr.1

/-- Memo-map keys are distinct. -/
def Dnodup (st : BuildState) : Prop := (st.dirNodes.map Prod.fst).Nodup

/-- The directory nodes correspond exactly, in order, to the memo map. -/
def Dcorr (st : BuildState) : Prop :=
  (st.nodes.filter (fun n => n.type == "directory")).map (fun n => (n.path, n.id))
    = st.dirNodes

theorem ensureDir_Imap (aid : String) (st : BuildState) (dirPath : String)
    (h : Imap aid st) : Imap aid (ensureDir aid st dirPath).1 := by
  obtain ⟨newN, newE, newD, hN, hE, hD, hpair, htypes, hDfacts, hDnodup,
    hEfacts, hEperm, hret⟩ := ensureDir_spec aid st dirPath
  intro pr hpr
  rw [hD] at hpr
  rcases List.mem_append.1 hpr with h2 | h2
  · exact h pr h2
  · exact (hDfacts pr h2).1

theorem ensureDir_Dnodup (aid : String) (st : BuildState) (dirPath : String)
    (h : Dnodup st) : Dnodup (ensureDir aid st dirPath).1 := by
  obtain ⟨newN, newE, newD, hN, hE, hD, hpair, htypes, hDfacts, hDnodup,
    hEfacts, hEperm, hret⟩ := ensureDir_spec aid st dirPath
  unfold Dnodup at h ⊢
  rw [hD, List.map_append]
  refine List.Nodup.append h hDnodup ?_
  intro k hk1 hk2
  simp only [List.mem_map] at hk1 hk2
  obtain ⟨pr1, hpr1, hf1⟩ := hk1
  obtain ⟨pr2, hpr2, hf2⟩ := hk2
  exact (hDfacts pr2 hpr2).2.2.1 (by rw [hf2, ← hf1]; exact List.mem_map_of_mem _ hpr1)

theorem ensureDir_Dcorr (aid : String) (st : BuildState) (dirPath : String)
    (h : Dcorr st) : Dcorr (ensureDir aid st dirPath).1 := by
  obtain ⟨newN, newE, newD, hN, hE, hD, hpair, htypes, hDfacts, hDnodup,
    hEfacts, hEperm, hret⟩ := ensureDir_spec aid st dirPath
  unfold Dcorr at h ⊢
  rw [hN, hD, List.filter_append, List.map_append, h]
  congr 1
  rw [List.filter_eq_self.2 (fun n hn => by simp [htypes n hn]), hpair]

/-- A memoized path always has a matching directory node. -/
theorem node_of_dirNodes_mem (st : BuildState) (hc : Dcorr st)
    (p i : String) (hmem : (p, i) ∈ st.dirNodes) :
    ∃ n ∈ st.nodes, n.id = i ∧ n.type = "directory" ∧ n.path = p := by
  unfold Dcorr at hc
  rw [← hc] at hmem
  simp only [List.mem_map] at hmem
  obtain ⟨n, hn, heq⟩ := hmem
  obtain ⟨hn2, hn3⟩ := List.mem_filter.1 hn
  refine ⟨n, hn2, ?_, by simpa using hn3, ?_⟩
  · exact congrArg Prod.snd heq
  · exact congrArg Prod.fst heq

/-- The id returned by `ensure_dir` is the deterministic `dirId` of the
requested path. -/
theorem ensureDir_ret_id (aid : String) (st : BuildState) (dirPath : String)
    (h : Imap aid st) : (ensureDir aid st dirPath).2 = dirId aid dirPath := by
  obtain ⟨newN, newE, newD, hN, hE, hD, hpair, htypes, hDfacts, hDnodup,
    hEfacts, hEperm, hret⟩ := ensureDir_spec aid st dirPath
  exact ensureDir_Imap aid st dirPath h _ hret

/-!
### Reachability of directories from the synthetic root
-/

/-- One `contains` hop along the edge list. -/
def containsStep (edges : List GEdge) (a b : String) : Prop :=
  ∃ e ∈ edges, e.type = "contains" ∧ e.source = a ∧ e.target = b

/-- Reachability along `contains` edges. -/
def Reach (edges : List GEdge) (a b : String) : Prop :=
  Relation.ReflTransGen (containsStep edges) a b

theorem Reach.mono {edges edges' : List GEdge} (hsub : ∀ e ∈ edges, e ∈ edges')
    {a b : String} (h : Reach edges a b) : Reach edges' a b :=
  Relation.ReflTransGen.mono
    (fun x y hxy => by
      obtain ⟨e, he, hf⟩ := hxy
      exact ⟨e, hsub e he, hf⟩) h

/-- Reachability bookkeeping for `ensure_dir`: if every memoized directory is
either still being linked (`pending`, always of strictly larger measure) or
already reachable from the root, then after the call every memoized directory
satisfies the same property and the returned directory is reachable. -/
theorem ensureDir_reach (aid : String) (st : BuildState) (dirPath : String) :
    ∀ pending : List String,
      (∀ q ∈ pending, dirMeasure dirPath < dirMeasure q) →
      (∀ pr ∈ st.dirNodes, pr.1 ∈ pending ∨ Reach st.edges (rootId aid) pr.2) →
      (∀ pr ∈ (ensureDir aid st dirPath).1.dirNodes,
          pr.1 ∈ pending ∨ Reach (ensureDir aid st dirPath).1.edges (rootId aid) pr.2) ∧
      Reach (ensureDir aid st dirPath).1.edges (rootId aid) (ensureDir aid st dirPath).2 := by
  induction st, dirPath using ensureDir.induct aid with
  | case1 st dirPath nid h =>
    intro pending hpend hmap
    have hunfold : ensureDir aid st dirPath = (st, nid) := by
      rw [ensureDir]
      simp [h]
    rw [hunfold]
    refine ⟨hmap, ?_⟩
    rcases hmap (dirPath, nid) (lookup_mem _ _ _ h) with hc | hc
    · exact absurd (hpend dirPath hc) (lt_irrefl _)
    · exact hc
  | case2 st h =>
    intro pending hpend hmap
    have hunfold : ensureDir aid st "/"
        = ({ st with
              nodes := st.nodes ++ [dirNodeOf aid "/"]
              dirNodes := st.dirNodes ++ [("/", dirId aid "/")] },
           dirId aid "/") := by
      rw [ensureDir]
      simp [h]
    rw [hunfold]
    have hroot : dirId aid "/" = rootId aid := by simp [dirId]
    refine ⟨?_, by rw [hroot]; exact Relation.ReflTransGen.refl⟩
    intro pr hpr
    rcases List.mem_append.1 hpr with h2 | h2
    · exact hmap pr h2
    · simp only [List.mem_singleton] at h2
      subst h2
      right
      rw [hroot]
      exact Relation.ReflTransGen.refl
  | case3 st dirPath h nid st1 hp ih =>
    intro pending hpend hmap
    have hunfold :
        ensureDir aid st dirPath
        = ({ (ensureDir aid st1 (parentPathPy dirPath)).1 with
              edges := (ensureDir aid st1 (parentPathPy dirPath)).1.edges ++
                [{ id := "edge_" ++ (ensureDir aid st1 (parentPathPy dirPath)).2
                      ++ "_" ++ nid
                   source := (ensureDir aid st1 (parentPathPy dirPath)).2
                   target := nid
                   type := "contains" }] },
           nid) := by
      rw [ensureDir]
      simp only [h, dif_neg hp]
    rw [hunfold]
    have hplt := dirMeasure_parent_lt dirPath hp
    have hpend' : ∀ q ∈ dirPath :: pending,
        dirMeasure (parentPathPy dirPath) < dirMeasure q := by
      intro q hq
      rcases List.mem_cons.1 hq with rfl | hq2
      · exact hplt
      · exact lt_trans hplt (hpend q hq2)
    have hmap' : ∀ pr ∈ st1.dirNodes,
        pr.1 ∈ dirPath :: pending ∨ Reach st1.edges (rootId aid) pr.2 := by
      intro pr hpr
      rcases List.mem_append.1 hpr with h2 | h2
      · rcases hmap pr h2 with hc | hc
        · exact Or.inl (List.mem_cons_of_mem _ hc)
        · exact Or.inr hc
      · simp only [List.mem_singleton] at h2
        subst h2
        exact Or.inl (List.mem_cons_self _ _)
    obtain ⟨hA, hB⟩ := ih (dirPath :: pending) hpend' hmap'
    have hsub : ∀ e ∈ (ensureDir aid st1 (parentPathPy dirPath)).1.edges,
        e ∈ (ensureDir aid st1 (parentPathPy dirPath)).1.edges ++
          [{ id := "edge_" ++ (ensureDir aid st1 (parentPathPy dirPath)).2
                ++ "_" ++ nid
             source := (ensureDir aid st1 (parentPathPy dirPath)).2
             target := nid
             type := "contains" }] :=
      fun e he => List.mem_append_left _ he
    have hreach_nid :
        Reach ((ensureDir aid st1 (parentPathPy dirPath)).1.edges ++
          [{ id := "edge_" ++ (ensureDir aid st1 (parentPathPy dirPath)).2
                ++ "_" ++ nid
             source := (ensureDir aid st1 (parentPathPy dirPath)).2
             target := nid
             type := "contains" }]) (rootId aid) nid := by
      refine Relation.ReflTransGen.tail (Reach.mono hsub hB) ?_
      exact ⟨_, List.mem_append_right _ (List.mem_singleton_self _), rfl, rfl, rfl⟩
    refine ⟨?_, hreach_nid⟩
    intro pr hpr
    have hkeyeq : pr.1 = dirPath → pr.2 = nid := by
      intro hfst
      obtain ⟨newN, newE, newD, hN, hE, hD, hpair, htypes, hDfacts, hDnodup,
        hEfacts, hEperm, hret⟩ := ensureDir_spec aid st1 (parentPathPy dirPath)
      rw [hD] at hpr
      rcases List.mem_append.1 hpr with h2 | h2
      · rcases List.mem_append.1 h2 with h3 | h3
        · exact absurd hfst ((lookup_eq_none_iff _ _ |>.1 h) pr h3)
        · simp only [List.mem_singleton] at h3
          rw [h3]
      · have h4 := (hDfacts pr h2).2.2.2
        rw [hfst] at h4
        exact absurd (lt_of_le_of_lt h4 hplt) (lt_irrefl _)
    rcases hA pr hpr with hc | hc
    · rcases List.mem_cons.1 hc with hc2 | hc2
      · right
        rw [hkeyeq hc2]
        exact hreach_nid
      · exact Or.inl hc2
    · exact Or.inr (Reach.mono hsub hc)

/-- Specification of one file iteration: it appends the file node, a block
of new directory nodes/map entries, the new directory `contains` edges, and
finally one `contains` edge from the memoized parent directory to the file
node. -/
theorem fileStep_spec (aid : String) (findings : List Finding)
    (st : BuildState) (f : FileMeta) :
    ∃ newN newE newD pid,
      (fileStep aid findings st f).nodes
        = st.nodes ++ fileNodeOf aid findings f :: newN ∧
      (fileStep aid findings st f).edges
        = st.edges ++ newE ++
          [{ id := "edge_" ++ pid ++ "_" ++ fileId aid f.path
             source := pid
             target := fileId aid f.path
             type := "contains" }] ∧
      (fileStep aid findings st f).dirNodes = st.dirNodes ++ newD ∧
      newN.map (fun n => (n.path, n.id)) = newD ∧
      (∀ n ∈ newN, n.type = "directory") ∧
      (∀ pr ∈ newD, pr.2 = dirId aid pr.1 ∧
        pr.1 ∈ ancestorChainPy (parentPathPy f.path) ∧
        pr.1 ∉ st.dirNodes.map Prod.fst) ∧
      (newD.map Prod.fst).Nodup ∧
      (∀ e ∈ newE, e.type = "contains" ∧
        e.id = "edge_" ++ e.source ++ "_" ++ e.target ∧
        (∃ pr ∈ (fileStep aid findings st f).dirNodes, e.source = pr.2) ∧
        (∃ pr ∈ newD, e.target = pr.2)) ∧
      ((newE.map (fun e => e.target)).Perm
        ((newD.filter (fun pr => ¬ pr.1 = "/")).map Prod.snd)) ∧
      (parentPathPy f.path, pid) ∈ (fileStep aid findings st f).dirNodes := by
  set st1 : BuildState :=
    { st with nodes := st.nodes ++ [fileNodeOf aid findings f] } with hst1
  obtain ⟨newN, newE, newD, hN, hE, hD, hpair, htypes, hDfacts, hDnodup,
    hEfacts, hEperm, hret⟩ := ensureDir_spec aid st1 (parentPathPy f.path)
  have hstep : fileStep aid findings st f
      = { (ensureDir aid st1 (parentPathPy f.path)).1 with
          edges := (ensureDir aid st1 (parentPathPy f.path)).1.edges ++
            [{ id := "edge_" ++ (ensureDir aid st1 (parentPathPy f.path)).2
                  ++ "_" ++ fileId aid f.path
               source := (ensureDir aid st1 (parentPathPy f.path)).2
               target := fileId aid f.path
               type := "contains" }] } := by
    simp only [fileStep]
  refine ⟨newN, newE, newD, (ensureDir aid st1 (parentPathPy f.path)).2,
    ?_, ?_, ?_, hpair, htypes, ?_, hDnodup, ?_, hEperm, ?_⟩
  · rw [hstep]
    show (ensureDir aid st1 (parentPathPy f.path)).1.nodes = _
    rw [hN, hst1]
    simp
  · rw [hstep]
    show (ensureDir aid st1 (parentPathPy f.path)).1.edges ++ _ = _
    rw [hE, hst1]
  · rw [hstep]
    show (ensureDir aid st1 (parentPathPy f.path)).1.dirNodes = _
    rw [hD, hst1]
  · intro pr hpr
    obtain ⟨h1, h2, h3, _⟩ := hDfacts pr hpr
    exact ⟨h1, h2, h3⟩
  · intro e he
    obtain ⟨h1, h2, h3, h4⟩ := hEfacts e he
    refine ⟨h1, h2, ?_, h4⟩
    rw [hstep]
    show ∃ pr ∈ (ensureDir aid st1 (parentPathPy f.path)).1.dirNodes, _
    exact h3
  · rw [hstep]
    show (parentPathPy f.path, _) ∈ (ensureDir aid st1 (parentPathPy f.path)).1.dirNodes
    exact hret

/-!
### Characterizing the node families of the built graph
-/

theorem fileStep_file_filter (aid : String) (findings : List Finding)
    (st : BuildState) (f : FileMeta) :
    ((fileStep aid findings st f).nodes.filter (fun n => n.type == "file"))
      = st.nodes.filter (fun n => n.type == "file")
        ++ [fileNodeOf aid findings f] := by
  obtain ⟨newN, newE, newD, pid, hN, hE, hD, hpair, htypes, hDfacts, hDnodup,
    hEfacts, hEperm, hpid⟩ := fileStep_spec aid findings st f
  rw [hN, List.filter_append, List.filter_cons]
  have h1 : ((fileNodeOf aid findings f).type == "file") = true := by
    simp [fileNodeOf]
  rw [if_pos h1]
  have h2 : newN.filter (fun n => n.type == "file") = [] := by
    rw [List.filter_eq_nil_iff]
    intro n hn
    simp [htypes n hn]
  rw [h2]

theorem fileStep_pkg_filter (aid : String) (findings : List Finding)
    (st : BuildState) (f : FileMeta) :
    ((fileStep aid findings st f).nodes.filter (fun n => n.type == "package"))
      = st.nodes.filter (fun n => n.type == "package") := by
  obtain ⟨newN, newE, newD, pid, hN, hE, hD, hpair, htypes, hDfacts, hDnodup,
    hEfacts, hEperm, hpid⟩ := fileStep_spec aid findings st f
  rw [hN, List.filter_append, List.filter_cons]
  have h1 : ((fileNodeOf aid findings f).type == "package") = false := by
    simp [fileNodeOf]
  rw [if_neg (by simp [h1])]
  have h2 : newN.filter (fun n => n.type == "package") = [] := by
    rw [List.filter_eq_nil_iff]
    intro n hn
    simp [htypes n hn]
  rw [h2, List.append_nil]

theorem foldl_file_filter (aid : String) (findings : List Finding)
    (l : List FileMeta) :
    ∀ st : BuildState,
      ((l.foldl (fileStep aid findings) st).nodes.filter
          (fun n => n.type == "file"))
        = st.nodes.filter (fun n => n.type == "file")
          ++ l.map (fileNodeOf aid findings) := by
  induction l with
  | nil => intro st; simp
  | cons f fs ih =>
    intro st
    rw [List.foldl_cons, ih, fileStep_file_filter]
    simp

theorem foldl_pkg_filter (aid : String) (findings : List Finding)
    (l : List FileMeta) :
    ∀ st : BuildState,
      ((l.foldl (fileStep aid findings) st).nodes.filter
          (fun n => n.type == "package"))
        = st.nodes.filter (fun n => n.type == "package") := by
  induction l with
  | nil => intro st; rfl
  | cons f fs ih =>
    intro st
    rw [List.foldl_cons, ih, fileStep_pkg_filter]

/-- The file nodes of the built graph are exactly, in order, the nodes built
from the first 200 metadata files. -/
theorem buildState_file_nodes (aid : String) (m : Metadata)
    (findings : List Finding) :
    ((buildState aid m findings).nodes.filter (fun n => n.type == "file"))
      = (m.files.take 200).map (fileNodeOf aid findings) := by
  obtain ⟨newN, newE, newD, hN, hE, hD, hpair, htypes, hDfacts, hDnodup,
    hEfacts, hEperm, hret⟩ := ensureDir_spec aid {} "/"
  have h0 : ((ensureDir aid {} "/").1.nodes.filter (fun n => n.type == "file"))
      = [] := by
    rw [hN]
    simp only [BuildState.nodes, List.nil_append]
    rw [List.filter_eq_nil_iff]
    intro n hn
    simp [htypes n hn]
  simp only [buildState]
  rw [List.filter_append, foldl_file_filter, h0]
  have hpkg : (((m.dependencies.take 50).map (pkgNodeOf aid)).filter
      (fun n => n.type == "file")) = [] := by
    rw [List.filter_eq_nil_iff]
    intro n hn
    simp only [List.mem_map] at hn
    obtain ⟨d, _, rfl⟩ := hn
    simp [pkgNodeOf]
  rw [hpkg]
  simp

/-- The package nodes of the built graph are exactly, in order, the nodes
built from the first 50 dependencies. -/
theorem buildState_pkg_nodes (aid : String) (m : Metadata)
    (findings : List Finding) :
    ((buildState aid m findings).nodes.filter (fun n => n.type == "package"))
      = (m.dependencies.take 50).map (pkgNodeOf aid) := by
  obtain ⟨newN, newE, newD, hN, hE, hD, hpair, htypes, hDfacts, hDnodup,
    hEfacts, hEperm, hret⟩ := ensureDir_spec aid {} "/"
  have h0 : ((ensureDir aid {} "/").1.nodes.filter (fun n => n.type == "package"))
      = [] := by
    rw [hN]
    simp only [BuildState.nodes, List.nil_append]
    rw [List.filter_eq_nil_iff]
    intro n hn
    simp [htypes n hn]
  simp only [buildState]
  rw [List.filter_append, foldl_pkg_filter, h0]
  have hpkg : (((m.dependencies.take 50).map (pkgNodeOf aid)).filter
      (fun n => n.type == "package")) = (m.dependencies.take 50).map (pkgNodeOf aid) := by
    rw [List.filter_eq_self]
    intro n hn
    simp only [List.mem_map] at hn
    obtain ⟨d, _, rfl⟩ := hn
    simp [pkgNodeOf]
  rw [hpkg]
  simp

/-- Every node of the built graph is a directory, file or package node. -/
theorem buildState_types (aid : String) (m : Metadata) (findings : List Finding) :
    ∀ n ∈ (buildState aid m findings).nodes,
      n.type = "directory" ∨ n.type = "file" ∨ n.type = "package" := by
  have hfold : ∀ (l : List FileMeta) (st : BuildState),
      (∀ n ∈ st.nodes, n.type = "directory" ∨ n.type = "file" ∨ n.type = "package") →
      ∀ n ∈ (l.foldl (fileStep aid findings) st).nodes,
        n.type = "directory" ∨ n.type = "file" ∨ n.type = "package" := by
    intro l
    induction l with
    | nil => intro st h; exact h
    | cons f fs ih =>
      intro st h
      rw [List.foldl_cons]
      refine ih _ ?_
      obtain ⟨newN, newE, newD, pid, hN, hE, hD, hpair, htypes, hDfacts,
        hDnodup, hEfacts, hEperm, hpid⟩ := fileStep_spec aid findings st f
      intro n hn
      rw [hN] at hn
      rcases List.mem_append.1 hn with h2 | h2
      · exact h n h2
      · rcases List.mem_cons.1 h2 with rfl | h3
        · exact Or.inr (Or.inl rfl)
        · exact Or.inl (htypes n h3)
  intro n hn
  simp only [buildState] at hn
  rcases List.mem_append.1 hn with h2 | h2
  · refine hfold _ _ ?_ n h2
    obtain ⟨newN, newE, newD, hN, hE, hD, hpair, htypes, hDfacts, hDnodup,
      hEfacts, hEperm, hret⟩ := ensureDir_spec aid {} "/"
    intro n2 hn2
    rw [hN] at hn2
    simp only [BuildState.nodes, List.nil_append] at hn2
    exact Or.inl (htypes n2 hn2)
  · simp only [List.mem_map] at h2
    obtain ⟨d, _, rfl⟩ := h2
    exact Or.inr (Or.inr rfl)

/-!
### Endpoint closure and reachability for the built graph
-/

/-- Every edge endpoint names an existing node. -/
def Iedge (st : BuildState) : Prop :=
  ∀ e ∈ st.edges,
    (∃ n ∈ st.nodes, n.id = e.source) ∧ (∃ n ∈ st.nodes, n.id = e.target)

/-- Every edge is a `contains` edge whose id is `edge_{source}_{target}`. -/
def Etype (st : BuildState) : Prop :=
  ∀ e ∈ st.edges, e.type = "contains" ∧
    e.id = "edge_" ++ e.source ++ "_" ++ e.target

/-- Every memoized directory is reachable from the synthetic root. -/
def Kreach (aid : String) (st : BuildState) : Prop :=
  ∀ pr ∈ st.dirNodes, Reach st.edges (rootId aid) pr.2

theorem fileStep_Imap (aid : String) (findings : List Finding)
    (st : BuildState) (f : FileMeta) (h : Imap aid st) :
    Imap aid (fileStep aid findings st f) := by
  obtain ⟨newN, newE, newD, pid, hN, hE, hD, hpair, htypes, hDfacts, hDnodup,
    hEfacts, hEperm, hpid⟩ := fileStep_spec aid findings st f
  intro pr hpr
  rw [hD] at hpr
  rcases List.mem_append.1 hpr with h2 | h2
  · exact h pr h2
  · exact (hDfacts pr h2).1

theorem fileStep_Dnodup (aid : String) (findings : List Finding)
    (st : BuildState) (f : FileMeta) (h : Dnodup st) :
    Dnodup (fileStep aid findings st f) := by
  obtain ⟨newN, newE, newD, pid, hN, hE, hD, hpair, htypes, hDfacts, hDnodup,
    hEfacts, hEperm, hpid⟩ := fileStep_spec aid findings st f
  unfold Dnodup at h ⊢
  rw [hD, List.map_append]
  refine List.Nodup.append h hDnodup ?_
  intro k hk1 hk2
  simp only [List.mem_map] at hk1 hk2
  obtain ⟨pr1, hpr1, hf1⟩ := hk1
  obtain ⟨pr2, hpr2, hf2⟩ := hk2
  exact (hDfacts pr2 hpr2).2.2 (by rw [hf2, ← hf1]; exact List.mem_map_of_mem _ hpr1)

theorem fileStep_Dcorr (aid : String) (findings : List Finding)
    (st : BuildState) (f : FileMeta) (h : Dcorr st) :
    Dcorr (fileStep aid findings st f) := by
  obtain ⟨newN, newE, newD, pid, hN, hE, hD, hpair, htypes, hDfacts, hDnodup,
    hEfacts, hEperm, hpid⟩ := fileStep_spec aid findings st f
  unfold Dcorr at h ⊢
  have h1 : ((fileNodeOf aid findings f).type == "directory") = false := by
    simp [fileNodeOf]
  have hfn : newN.filter (fun n => n.type == "directory") = newN :=
    List.filter_eq_self.2 (fun n hn => by simp [htypes n hn])
  rw [hN, hD, List.filter_append, List.filter_cons, if_neg (by simp [h1]),
    hfn, List.map_append, h, hpair]

theorem fileStep_Etype (aid : String) (findings : List Finding)
    (st : BuildState) (f : FileMeta) (h : Etype st) :
    Etype (fileStep aid findings st f) := by
  obtain ⟨newN, newE, newD, pid, hN, hE, hD, hpair, htypes, hDfacts, hDnodup,
    hEfacts, hEperm, hpid⟩ := fileStep_spec aid findings st f
  intro e he
  rw [hE] at he
  rcases List.mem_append.1 he with h2 | h2
  · rcases List.mem_append.1 h2 with h3 | h3
    · exact h e h3
    · obtain ⟨h4, h5, _, _⟩ := hEfacts e h3
      exact ⟨h4, h5⟩
  · simp only [List.mem_singleton] at h2
    subst h2
    exact ⟨rfl, rfl⟩

theorem fileStep_Iedge (aid : String) (findings : List Finding)
    (st : BuildState) (f : FileMeta) (hc : Dcorr st) (h : Iedge st) :
    Iedge (fileStep aid findings st f) := by
  have hc2 : Dcorr (fileStep aid findings st f) :=
    fileStep_Dcorr aid findings st f hc
  obtain ⟨newN, newE, newD, pid, hN, hE, hD, hpair, htypes, hDfacts, hDnodup,
    hEfacts, hEperm, hpid⟩ := fileStep_spec aid findings st f
  intro e he
  have hmono : ∀ n ∈ st.nodes, n ∈ (fileStep aid findings st f).nodes := by
    intro n hn
    rw [hN]
    exact List.mem_append_left _ hn
  rw [hE] at he
  rcases List.mem_append.1 he with h2 | h2
  · rcases List.mem_append.1 h2 with h3 | h3
    · obtain ⟨⟨n1, hn1, hid1⟩, ⟨n2, hn2, hid2⟩⟩ := h e h3
      exact ⟨⟨n1, hmono n1 hn1, hid1⟩, ⟨n2, hmono n2 hn2, hid2⟩⟩
    · obtain ⟨_, _, ⟨pr1, hpr1, hs⟩, ⟨pr2, hpr2, ht⟩⟩ := hEfacts e h3
      have hm2 : pr2 ∈ (fileStep aid findings st f).dirNodes := by
        rw [hD]
        exact List.mem_append_right _ hpr2
      obtain ⟨n1, hn1, hid1, _, _⟩ := node_of_dirNodes_mem _ hc2 pr1.1 pr1.2 hpr1
      obtain ⟨n2, hn2, hid2, _, _⟩ := node_of_dirNodes_mem _ hc2 pr2.1 pr2.2 hm2
      exact ⟨⟨n1, hn1, by rw [hid1, hs]⟩, ⟨n2, hn2, by rw [hid2, ht]⟩⟩
  · simp only [List.mem_singleton] at h2
    subst h2
    obtain ⟨n1, hn1, hid1, _, _⟩ :=
      node_of_dirNodes_mem _ hc2 (parentPathPy f.path) pid hpid
    refine ⟨⟨n1, hn1, hid1⟩, ⟨fileNodeOf aid findings f, ?_, rfl⟩⟩
    rw [hN]
    exact List.mem_append_right _ (List.mem_cons_self _ _)

theorem fileStep_Kreach (aid : String) (findings : List Finding)
    (st : BuildState) (f : FileMeta) (h : Kreach aid st) :
    Kreach aid (fileStep aid findings st f) := by
  set st1 : BuildState :=
    { st with nodes := st.nodes ++ [fileNodeOf aid findings f] } with hst1
  have h1 : ∀ pr ∈ st1.dirNodes,
      pr.1 ∈ ([] : List String) ∨ Reach st1.edges (rootId aid) pr.2 :=
    fun pr hpr => Or.inr (h pr hpr)
  obtain ⟨hA, _⟩ := ensureDir_reach aid st1 (parentPathPy f.path) [] (by simp) h1
  have hstep : fileStep aid findings st f
      = { (ensureDir aid st1 (parentPathPy f.path)).1 with
          edges := (ensureDir aid st1 (parentPathPy f.path)).1.edges ++
            [{ id := "edge_" ++ (ensureDir aid st1 (parentPathPy f.path)).2
                  ++ "_" ++ fileId aid f.path
               source := (ensureDir aid st1 (parentPathPy f.path)).2
               target := fileId aid f.path
               type := "contains" }] } := by
    simp only [fileStep]
  intro pr hpr
  rw [hstep] at hpr ⊢
  have hpr2 : pr ∈ (ensureDir aid st1 (parentPathPy f.path)).1.dirNodes := hpr
  rcases hA pr hpr2 with hc | hc
  · exact absurd hc (List.not_mem_nil _)
  · exact Reach.mono (fun e he => List.mem_append_left _ he) hc

theorem ensureDir_Etype (aid : String) (st : BuildState) (dirPath : String)
    (h : Etype st) : Etype (ensureDir aid st dirPath).1 := by
  obtain ⟨newN, newE, newD, hN, hE, hD, hpair, htypes, hDfacts, hDnodup,
    hEfacts, hEperm, hret⟩ := ensureDir_spec aid st dirPath
  intro e he
  rw [hE] at he
  rcases List.mem_append.1 he with h2 | h2
  · exact h e h2
  · obtain ⟨h4, h5, _, _⟩ := hEfacts e h2
    exact ⟨h4, h5⟩

theorem ensureDir_Iedge (aid : String) (st : BuildState) (dirPath : String)
    (hc : Dcorr st) (h : Iedge st) : Iedge (ensureDir aid st dirPath).1 := by
  have hc2 : Dcorr (ensureDir aid st dirPath).1 := ensureDir_Dcorr aid st dirPath hc
  obtain ⟨newN, newE, newD, hN, hE, hD, hpair, htypes, hDfacts, hDnodup,
    hEfacts, hEperm, hret⟩ := ensureDir_spec aid st dirPath
  intro e he
  have hmono : ∀ n ∈ st.nodes, n ∈ (ensureDir aid st dirPath).1.nodes := by
    intro n hn
    rw [hN]
    exact List.mem_append_left _ hn
  rw [hE] at he
  rcases List.mem_append.1 he with h2 | h2
  · obtain ⟨⟨n1, hn1, hid1⟩, ⟨n2, hn2, hid2⟩⟩ := h e h2
    exact ⟨⟨n1, hmono n1 hn1, hid1⟩, ⟨n2, hmono n2 hn2, hid2⟩⟩
  · obtain ⟨_, _, ⟨pr1, hpr1, hs⟩, ⟨pr2, hpr2, ht⟩⟩ := hEfacts e h2
    have hm2 : pr2 ∈ (ensureDir aid st dirPath).1.dirNodes := by
      rw [hD]
      exact List.mem_append_right _ hpr2
    obtain ⟨n1, hn1, hid1, _, _⟩ := node_of_dirNodes_mem _ hc2 pr1.1 pr1.2 hpr1
    obtain ⟨n2, hn2, hid2, _, _⟩ := node_of_dirNodes_mem _ hc2 pr2.1 pr2.2 hm2
    exact ⟨⟨n1, hn1, by rw [hid1, hs]⟩, ⟨n2, hn2, by rw [hid2, ht]⟩⟩

theorem ensureDir_Kreach (aid : String) (st : BuildState) (dirPath : String)
    (h : Kreach aid st) : Kreach aid (ensureDir aid st dirPath).1 := by
  obtain ⟨hA, _⟩ := ensureDir_reach aid st dirPath [] (by simp)
    (fun pr hpr => Or.inr (h pr hpr))
  intro pr hpr
  rcases hA pr hpr with hc | hc
  · exact absurd hc (List.not_mem_nil _)
  · exact hc

/-- All six invariants hold for the state after the file fold. -/
theorem foldl_invariants (aid : String) (findings : List Finding)
    (l : List FileMeta) :
    ∀ st : BuildState,
      Imap aid st → Dnodup st → Dcorr st → Etype st → Iedge st → Kreach aid st →
      Imap aid (l.foldl (fileStep aid findings) st) ∧
      Dnodup (l.foldl (fileStep aid findings) st) ∧
      Dcorr (l.foldl (fileStep aid findings) st) ∧
      Etype (l.foldl (fileStep aid findings) st) ∧
      Iedge (l.foldl (fileStep aid findings) st) ∧
      Kreach aid (l.foldl (fileStep aid findings) st) := by
  induction l with
  | nil => intro st h1 h2 h3 h4 h5 h6; exact ⟨h1, h2, h3, h4, h5, h6⟩
  | cons f fs ih =>
    intro st h1 h2 h3 h4 h5 h6
    rw [List.foldl_cons]
    exact ih _ (fileStep_Imap aid findings st f h1)
      (fileStep_Dnodup aid findings st f h2)
      (fileStep_Dcorr aid findings st f h3)
      (fileStep_Etype aid findings st f h4)
      (fileStep_Iedge aid findings st f h3 h5)
      (fileStep_Kreach aid findings st f h6)

/-- All six invariants hold for the final build state. -/
theorem buildState_invariants (aid : String) (m : Metadata)
    (findings : List Finding) :
    Imap aid (buildState aid m findings) ∧
    Dnodup (buildState aid m findings) ∧
    Dcorr (buildState aid m findings) ∧
    Etype (buildState aid m findings) ∧
    Iedge (buildState aid m findings) ∧
    Kreach aid (buildState aid m findings) := by
  have hempty : Imap aid {} ∧ Dnodup ({} : BuildState) ∧ Dcorr {} ∧ Etype {}
      ∧ Iedge {} ∧ Kreach aid {} := by
    refine ⟨?_, ?_, ?_, ?_, ?_, ?_⟩ <;>
      first
        | exact fun pr hpr => absurd hpr (List.not_mem_nil _)
        | exact List.nodup_nil
        | rfl
        | exact fun e he => absurd he (List.not_mem_nil _)
  obtain ⟨e1, e2, e3, e4, e5, e6⟩ := hempty
  have hst0 : Imap aid (ensureDir aid {} "/").1 ∧ Dnodup (ensureDir aid {} "/").1
      ∧ Dcorr (ensureDir aid {} "/").1 ∧ Etype (ensureDir aid {} "/").1
      ∧ Iedge (ensureDir aid {} "/").1 ∧ Kreach aid (ensureDir aid {} "/").1 :=
    ⟨ensureDir_Imap aid {} "/" e1, ensureDir_Dnodup aid {} "/" e2,
     ensureDir_Dcorr aid {} "/" e3, ensureDir_Etype aid {} "/" e4,
     ensureDir_Iedge aid {} "/" e3 e5, ensureDir_Kreach aid {} "/" e6⟩
  obtain ⟨s1, s2, s3, s4, s5, s6⟩ := hst0
  obtain ⟨f1, f2, f3, f4, f5, f6⟩ :=
    foldl_invariants aid findings (m.files.take 200) _ s1 s2 s3 s4 s5 s6
  set stf := (m.files.take 200).foldl (fileStep aid findings)
    (ensureDir aid {} "/").1 with hstf
  have hnodes : (buildState aid m findings).nodes
      = stf.nodes ++ (m.dependencies.take 50).map (pkgNodeOf aid) := rfl
  have hedges : (buildState aid m findings).edges = stf.edges := rfl
  have hdir : (buildState aid m findings).dirNodes = stf.dirNodes := rfl
  refine ⟨?_, ?_, ?_, ?_, ?_, ?_⟩
  · intro pr hpr
    exact f1 pr (hdir ▸ hpr)
  · unfold Dnodup
    rw [hdir]
    exact f2
  · unfold Dcorr
    rw [hnodes, hdir, List.filter_append]
    have hpkg : (((m.dependencies.take 50).map (pkgNodeOf aid)).filter
        (fun n => n.type == "directory")) = [] := by
      rw [List.filter_eq_nil_iff]
      intro n hn
      simp only [List.mem_map] at hn
      obtain ⟨d, _, rfl⟩ := hn
      simp [pkgNodeOf]
    rw [hpkg, List.append_nil]
    exact f3
  · intro e he
    exact f4 e (hedges ▸ he)
  · intro e he
    obtain ⟨⟨n1, hn1, hid1⟩, ⟨n2, hn2, hid2⟩⟩ := f5 e (hedges ▸ he)
    rw [hnodes]
    exact ⟨⟨n1, List.mem_append_left _ hn1, hid1⟩,
      ⟨n2, List.mem_append_left _ hn2, hid2⟩⟩
  · intro pr hpr
    rw [hedges]
    exact f6 pr (hdir ▸ hpr)

/-- Every directory node of the built graph is reachable from the synthetic
root node via `contains` edges. -/
theorem buildState_dir_reachable (aid : String) (m : Metadata)
    (findings : List Finding) :
    ∀ n ∈ (buildState aid m findings).nodes, n.type = "directory" →
      Reach (buildState aid m findings).edges (rootId aid) n.id := by
  obtain ⟨_, _, hcorr, _, _, hreach⟩ := buildState_invariants aid m findings
  intro n hn htype
  have hmem : (n.path, n.id) ∈ (buildState aid m findings).dirNodes := by
    unfold Dcorr at hcorr
    rw [← hcorr]
    refine List.mem_map_of_mem _ ?_
    rw [List.mem_filter]
    exact ⟨hn, by simp [htype]⟩
  exact hreach (n.path, n.id) hmem

/-!
### The two sanitizers agree exactly when no `-` or space occurs
-/

theorem replaceChar_id (a b : Char) (s : String) (h : a ∉ s.data) :
    replaceChar a b s = s := by
  unfold replaceChar
  have : s.data.map (fun c => if c = a then b else c) = s.data := by
    rw [show s.data.map (fun c => if c = a then b else c) = s.data.map id from
      List.map_congr_left (fun c hc => if_neg (fun he => h (by rw [← he]; exact hc)))]
    exact List.map_id s.data
  rw [this, mk_data]

theorem mem_replaceChar (a b c : Char) (s : String)
    (h : c ∈ (replaceChar a b s).data) : c = b ∨ c ∈ s.data := by
  unfold replaceChar at h
  rw [show (String.mk (s.data.map (fun c => if c = a then b else c))).data
    = s.data.map (fun c => if c = a then b else c) from rfl] at h
  simp only [List.mem_map] at h
  obtain ⟨c0, hc0, heq⟩ := h
  by_cases hca : c0 = a
  · rw [hca, if_pos rfl] at heq
    exact Or.inl heq.symm
  · rw [if_neg hca] at heq
    exact Or.inr (heq ▸ hc0)

/-- On paths without `-` and spaces, the affects-edge sanitizer
(`replace("/", "_").replace(".", "_")`) agrees with `_safe_id`. -/
theorem affectsTargetId_eq_fileId (aid p : String)
    (h1 : '-' ∉ p.data) (h2 : ' ' ∉ p.data) :
    affectsTargetId aid p = fileId aid p := by
  unfold affectsTargetId fileId safe_id
  have hx1 : '-' ∉ (replaceChar '.' '_' (replaceChar '/' '_' p)).data := by
    intro hc
    rcases mem_replaceChar _ _ _ _ hc with he | hc2
    · cases he
    · rcases mem_replaceChar _ _ _ _ hc2 with he | hc3
      · cases he
      · exact h1 hc3
  have hx2 : ' ' ∉ (replaceChar '-' '_'
      (replaceChar '.' '_' (replaceChar '/' '_' p))).data := by
    intro hc
    rcases mem_replaceChar _ _ _ _ hc with he | hc2
    · cases he
    · rcases mem_replaceChar _ _ _ _ hc2 with he | hc3
      · cases he
      · rcases mem_replaceChar _ _ _ _ hc3 with he | hc4
        · cases he
        · exact h2 hc4
  rw [replaceChar_id ' ' '_' _ hx2, replaceChar_id '-' '_' _ hx1]

/-- C6 (amended): in the returned graph every edge is a `contains` edge whose
endpoints exist as nodes, every directory node is reachable from the
synthetic root, the backend receives one edge write per graph edge (endpoints
therefore existing), and — for a finding with a non-empty id (empty ids are
skipped by `if not fid: continue`) — an `affects` write references an
existing file node whenever the referenced file is among the first 200
metadata files and its path contains none of the characters (`-`, space)
that `_safe_id` replaces but the affects-edge builder does not. -/
theorem c6_graph_edges_and_tree (aid : String) (m : Metadata) (fs : List Finding) :
    (∀ e ∈ (build_neo4j_graph aid m fs true).1.edges,
      e.type = "contains" ∧
      (∃ n ∈ (build_neo4j_graph aid m fs true).1.nodes, n.id = e.source) ∧
      (∃ n ∈ (build_neo4j_graph aid m fs true).1.nodes, n.id = e.target)) ∧
    (∀ n ∈ (build_neo4j_graph aid m fs true).1.nodes, n.type = "directory" →
      Reach (build_neo4j_graph aid m fs true).1.edges (rootId aid) n.id) ∧
    (∀ e ∈ (build_neo4j_graph aid m fs true).1.edges,
      NeoWrite.edge aid e.id e.source e.target e.type
        ∈ (build_neo4j_graph aid m fs true).2) ∧
    (∀ fd ∈ fs, ∀ fid, fd.id = some fid → fid ≠ "" →
      ∀ loc_file ∈ ((fd.location.getD {}).files).take 20,
        loc_file ∈ (m.files.take 200).map (fun f => f.path) →
        '-' ∉ loc_file.data → ' ' ∉ loc_file.data →
        NeoWrite.affectsEdge aid fid (affectsTargetId aid loc_file)
            ∈ (build_neo4j_graph aid m fs true).2 ∧
        ∃ n ∈ (build_neo4j_graph aid m fs true).1.nodes,
          n.id = affectsTargetId aid loc_file) := by
  obtain ⟨_, _, _, hty, hie, _⟩ := buildState_invariants aid m fs
  have hnodes : (build_neo4j_graph aid m fs true).1.nodes
      = (buildState aid m fs).nodes := rfl
  have hedges : (build_neo4j_graph aid m fs true).1.edges
      = (buildState aid m fs).edges := rfl
  have hwrites : (build_neo4j_graph aid m fs true).2
      = (buildState aid m fs).nodes.filterMap (nodeWriteOf aid)
        ++ (buildState aid m fs).edges.map
            (fun e => NeoWrite.edge aid e.id e.source e.target e.type)
        ++ fs.flatMap (findingWrites aid) := rfl
  refine ⟨?_, ?_, ?_, ?_⟩
  · intro e he
    rw [hedges] at he
    obtain ⟨h1, _⟩ := hty e he
    obtain ⟨h2, h3⟩ := hie e he
    rw [hnodes]
    exact ⟨h1, h2, h3⟩
  · intro n hn htype
    rw [hnodes] at hn
    rw [hedges]
    exact buildState_dir_reachable aid m fs n hn htype
  · intro e he
    rw [hedges] at he
    rw [hwrites]
    exact List.mem_append_left _
      (List.mem_append_right _ (List.mem_map_of_mem _ he))
  · intro fd hfd fid hfid hfidne loc_file hloc hpath hd hsp
    constructor
    · rw [hwrites]
      refine List.mem_append_right _ ?_
      rw [List.mem_flatMap]
      refine ⟨fd, hfd, ?_⟩
      rw [findingWrites_some aid fd fid hfid hfidne]
      refine List.mem_append_left _ (List.mem_append_right _ ?_)
      exact List.mem_map_of_mem _ hloc
    · rw [affectsTargetId_eq_fileId aid loc_file hd hsp]
      simp only [List.mem_map] at hpath
      obtain ⟨f, hf, hfp⟩ := hpath
      have hfile := buildState_file_nodes aid m fs
      have hmem : fileNodeOf aid fs f
          ∈ ((buildState aid m fs).nodes.filter (fun n => n.type == "file")) := by
        rw [hfile]
        exact List.mem_map_of_mem _ hf
      refine ⟨fileNodeOf aid fs f, ?_, ?_⟩
      · rw [hnodes]
        exact (List.mem_filter.1 hmem).1
      · show fileId aid f.path = fileId aid loc_file
        rw [hfp]

/-- C6 counterexample: with a file named `a-b.py`, the builder writes an
`affects` edge whose target id `file_A_a-b_py` (dash kept) matches no node
(the file node id is `file_A_a_b_py`), so the written edge's endpoint does
not exist in the graph. -/
theorem c6_counterexample :
    (NeoWrite.affectsEdge "A" "f1" "file_A_a-b_py")
      ∈ (build_neo4j_graph "A" { files := [{ path := "a-b.py", name := "a-b.py" }] }
          [{ id := some "f1", severity := some "critical",
             location := some { files := ["a-b.py"] } }] true).2 ∧
    ((build_neo4j_graph "A" { files := [{ path := "a-b.py", name := "a-b.py" }] }
          [{ id := some "f1", severity := some "critical",
             location := some { files := ["a-b.py"] } }] true).1.nodes.map
        (fun n => n.id)).contains "file_A_a-b_py" = false := by
  constructor
  · simp +decide [build_neo4j_graph, buildState, fileStep, ensureDir,
      parentPathPy, pySplit, pyJoin, splitCharList, fileNodeOf, dirNodeOf,
      dirId, fileId, pkgId, rootId, safe_id, replaceChar, findingWrites,
      nodeWriteOf, affectsTargetId, strContains]
  · simp +decide [build_neo4j_graph, buildState, fileStep, ensureDir,
      parentPathPy, pySplit, pyJoin, splitCharList, fileNodeOf, dirNodeOf,
      dirId, fileId, pkgId, rootId, safe_id, replaceChar]

/-- Witness for the amended C6 theorem at a concrete input: a finding on file
`a.py` (no dash/space, within the first 200 files) gets an `affects` write
whose target exists as a node. -/
theorem c6_graph_edges_and_tree_witness :
    (NeoWrite.affectsEdge "A" "f1" (affectsTargetId "A" "a.py"))
      ∈ (build_neo4j_graph "A" { files := [{ path := "a.py", name := "a.py" }] }
          [{ id := some "f1", location := some { files := ["a.py"] } }] true).2 ∧
    ∃ n ∈ (build_neo4j_graph "A" { files := [{ path := "a.py", name := "a.py" }] }
          [{ id := some "f1", location := some { files := ["a.py"] } }] true).1.nodes,
      n.id = affectsTargetId "A" "a.py" :=
  (c6_graph_edges_and_tree "A" { files := [{ path := "a.py", name := "a.py" }] }
      [{ id := some "f1", location := some { files := ["a.py"] } }]).2.2.2
    { id := some "f1", location := some { files := ["a.py"] } }
    (List.mem_singleton_self _) "f1" rfl (by simp) "a.py" (by simp)
    (by simp) (by decide) (by decide)

/-- Recognizer for `fixNode` writes. -/
def NeoWrite.isFix : NeoWrite → Bool
  | NeoWrite.fixNode _ _ _ _ _ => true
  | _ => false

theorem nodeWriteOf_not_fix (aid : String) (n : GNode) (w : NeoWrite)
    (h : nodeWriteOf aid n = some w) : w.isFix = false := by
  unfold nodeWriteOf at h
  split_ifs at h <;>
    first
      | (simp only [Option.some.injEq] at h; subst h; rfl)
      | cases h

theorem findingWrites_not_fix (aid : String) (fd : Finding) (w : NeoWrite)
    (h : w ∈ findingWrites aid fd) : w.isFix = false := by
  rcases hid : fd.id with _ | fid
  · unfold findingWrites at h
    rw [hid] at h
    exact absurd h (List.not_mem_nil _)
  · by_cases hfe : fid = ""
    · unfold findingWrites at h
      rw [hid] at h
      dsimp only at h
      rw [if_pos hfe] at h
      exact absurd h (List.not_mem_nil _)
    rw [findingWrites_some aid fd fid hid hfe] at h
    rcases List.mem_append.1 h with h2 | h2
    · rcases List.mem_append.1 h2 with h3 | h3
      · simp only [List.mem_singleton] at h3
        subst h3
        rfl
      · simp only [List.mem_map] at h3
        obtain ⟨_, _, rfl⟩ := h3
        rfl
    · rcases hcid : cveIdOf fd with _ | cid
      · rw [hcid] at h2
        exact absurd h2 (List.not_mem_nil _)
      · rw [hcid] at h2
        dsimp only at h2
        by_cases hne : cid ≠ ""
        · rw [if_pos hne] at h2
          rcases List.mem_cons.1 h2 with rfl | h3
          · rfl
          · simp only [List.mem_singleton] at h3
            subst h3
            rfl
        · rw [if_neg hne] at h2
          exact absurd h2 (List.not_mem_nil _)

/-- C4 (amended): when the backend is reachable, the builder writes — for
every finding carrying a non-empty id (Python-falsy ids are skipped by
`if not fid: continue`) — a finding node, an `affects` edge per
referenced file (first 20), and, when a CVE id is present, a CVE node and a
`has_cve` edge; it never writes fix nodes or `resolves` edges (fixes are not
even an input of the builder); and the returned graph — which is what the
JSON-snapshot fallback stores — only ever holds directory, file and package
nodes, with no writes at all when the backend is unreachable. -/
theorem c4_backend_writes (aid : String) (m : Metadata) (fs : List Finding) :
    (∀ fd ∈ fs, ∀ fid, fd.id = some fid → fid ≠ "" →
      NeoWrite.findingNode aid fid ((fd.title.getD "").take 500)
          (fd.severity.getD "info") (fd.type.getD "finding")
          (fd.agent.getD "unknown") (findingDescr fd)
        ∈ (build_neo4j_graph aid m fs true).2 ∧
      (∀ loc_file ∈ ((fd.location.getD {}).files).take 20,
        NeoWrite.affectsEdge aid fid (affectsTargetId aid loc_file)
          ∈ (build_neo4j_graph aid m fs true).2) ∧
      (∀ cid, cveIdOf fd = some cid → cid ≠ "" →
        NeoWrite.cveNode aid ("cve_" ++ aid ++ "_" ++ cid)
            (match fd.cve with | some c => c.cvssScore | none => none)
            (match fd.cve with | some c => c.description | none => "")
            (match fd.cve with | some c => c.fixedVersion | none => "")
          ∈ (build_neo4j_graph aid m fs true).2 ∧
        NeoWrite.hasCveEdge aid fid ("cve_" ++ aid ++ "_" ++ cid)
          ∈ (build_neo4j_graph aid m fs true).2)) ∧
    (∀ c : Bool, ∀ w ∈ (build_neo4j_graph aid m fs c).2, w.isFix = false) ∧
    (∀ c : Bool, ∀ n ∈ (build_neo4j_graph aid m fs c).1.nodes,
      n.type = "directory" ∨ n.type = "file" ∨ n.type = "package") ∧
    (build_neo4j_graph aid m fs false).2 = [] := by
  have hwrites : (build_neo4j_graph aid m fs true).2
      = (buildState aid m fs).nodes.filterMap (nodeWriteOf aid)
        ++ (buildState aid m fs).edges.map
            (fun e => NeoWrite.edge aid e.id e.source e.target e.type)
        ++ fs.flatMap (findingWrites aid) := rfl
  have hmemfw : ∀ fd ∈ fs, ∀ w ∈ findingWrites aid fd,
      w ∈ (build_neo4j_graph aid m fs true).2 := by
    intro fd hfd w hw
    rw [hwrites]
    refine List.mem_append_right _ ?_
    rw [List.mem_flatMap]
    exact ⟨fd, hfd, hw⟩
  refine ⟨?_, ?_, ?_, rfl⟩
  · intro fd hfd fid hfid hfidne
    refine ⟨?_, ?_, ?_⟩
    · refine hmemfw fd hfd _ ?_
      rw [findingWrites_some aid fd fid hfid hfidne]
      exact List.mem_append_left _
        (List.mem_append_left _ (List.mem_singleton_self _))
    · intro loc_file hloc
      refine hmemfw fd hfd _ ?_
      rw [findingWrites_some aid fd fid hfid hfidne]
      exact List.mem_append_left _
        (List.mem_append_right _ (List.mem_map_of_mem _ hloc))
    · intro cid hcid hne
      constructor
      · refine hmemfw fd hfd _ ?_
        rw [findingWrites_some aid fd fid hfid hfidne]
        refine List.mem_append_right _ ?_
        rw [hcid]
        dsimp only
        rw [if_pos hne]
        exact List.mem_cons_self _ _
      · refine hmemfw fd hfd _ ?_
        rw [findingWrites_some aid fd fid hfid hfidne]
        refine List.mem_append_right _ ?_
        rw [hcid]
        dsimp only
        rw [if_pos hne]
        exact List.mem_cons_of_mem _ (List.mem_singleton_self _)
  · intro c w hw
    cases c with
    | false => exact absurd hw (List.not_mem_nil _)
    | true =>
      rw [hwrites] at hw
      rcases List.mem_append.1 hw with h2 | h2
      · rcases List.mem_append.1 h2 with h3 | h3
        · obtain ⟨n, _, hn⟩ := List.mem_filterMap.1 h3
          exact nodeWriteOf_not_fix aid n w hn
        · simp only [List.mem_map] at h3
          obtain ⟨_, _, rfl⟩ := h3
          rfl
      · obtain ⟨fd, _, hw2⟩ := List.mem_flatMap.1 h2
        exact findingWrites_not_fix aid fd w hw2
  · intro c n hn
    exact buildState_types aid m fs n hn

/-- C4 counterexample: with the backend unreachable, a finding with an id, a
referenced file and a CVE produces no backend write at all, and the returned
graph (the JSON-snapshot fallback) contains no finding node — the fallback is
not a transparent substitute for the finding/CVE subgraph. -/
theorem c4_counterexample :
    (build_neo4j_graph "A" { files := [{ path := "a.py", name := "a.py" }] }
        [{ id := some "f1", severity := some "critical",
           location := some { files := ["a.py"] },
           cve := some { id := "CVE-2024-1" } }] false).2 = [] ∧
    ((build_neo4j_graph "A" { files := [{ path := "a.py", name := "a.py" }] }
        [{ id := some "f1", severity := some "critical",
           location := some { files := ["a.py"] },
           cve := some { id := "CVE-2024-1" } }] false).1.nodes.map
      (fun n => n.type)).contains "finding" = false := by
  constructor
  · rfl
  · simp +decide [build_neo4j_graph, buildState, fileStep, ensureDir,
      parentPathPy, pySplit, pyJoin, splitCharList, fileNodeOf, dirNodeOf,
      dirId, fileId, pkgId, rootId, safe_id, replaceChar]

/-- Witness for the amended C4 theorem: a concrete finding with id, file and
CVE gets its finding node, affects edge and CVE writes when connected. -/
theorem c4_backend_writes_witness :
    NeoWrite.findingNode "A" "f1" (("" : String).take 500) "critical" "finding"
        "unknown"
        (findingDescr
          { id := some "f1", severity := some "critical",
            location := some { files := ["a.py"] },
            cve := some { id := "CVE-2024-1" } })
      ∈ (build_neo4j_graph "A" { files := [{ path := "a.py", name := "a.py" }] }
          [{ id := some "f1", severity := some "critical",
             location := some { files := ["a.py"] },
             cve := some { id := "CVE-2024-1" } }] true).2 ∧
    NeoWrite.hasCveEdge "A" "f1" "cve_A_CVE-2024-1"
      ∈ (build_neo4j_graph "A" { files := [{ path := "a.py", name := "a.py" }] }
          [{ id := some "f1", severity := some "critical",
             location := some { files := ["a.py"] },
             cve := some { id := "CVE-2024-1" } }] true).2 := by
  have h := (c4_backend_writes "A" { files := [{ path := "a.py", name := "a.py" }] }
      [{ id := some "f1", severity := some "critical",
         location := some { files := ["a.py"] },
         cve := some { id := "CVE-2024-1" } }]).1
    { id := some "f1", severity := some "critical",
      location := some { files := ["a.py"] },
      cve := some { id := "CVE-2024-1" } }
    (List.mem_singleton_self _) "f1" rfl (by simp)
  exact ⟨h.1, (h.2.2 "CVE-2024-1" rfl (by simp)).2⟩

/-!
### Uniqueness of node ids (claim C5)
-/

theorem dirId_ne_fileId (aid p b : String) : dirId aid p ≠ fileId aid b := by
  unfold dirId fileId rootId
  by_cases hp : p = "/"
  · rw [if_pos hp]
    intro h
    have h2 := congrArg String.data h
    simp only [String.data_append] at h2
    simp at h2
  · rw [if_neg hp]
    intro h
    have h2 := congrArg String.data h
    simp only [String.data_append] at h2
    simp at h2

theorem dirId_ne_pkgId (aid p b : String) : dirId aid p ≠ pkgId aid b := by
  unfold dirId pkgId rootId
  by_cases hp : p = "/"
  · rw [if_pos hp]
    intro h
    have h2 := congrArg String.data h
    simp only [String.data_append] at h2
    simp at h2
  · rw [if_neg hp]
    intro h
    have h2 := congrArg String.data h
    simp only [String.data_append] at h2
    simp at h2

theorem fileId_ne_pkgId (aid p b : String) : fileId aid p ≠ pkgId aid b := by
  unfold fileId pkgId
  intro h
  have h2 := congrArg String.data h
  simp only [String.data_append] at h2
  simp at h2

/-- All directory paths the builder can memoize for this metadata: the root
and the ancestor chains of the parents of the first 200 files. -/
def dirPathsOf (m : Metadata) : List String :=
  "/" :: (m.files.take 200).flatMap
    (fun f => ancestorChainPy (parentPathPy f.path))

/-- All memoized keys of the final build state lie in `dirPathsOf`. -/
theorem buildState_keys_sub (aid : String) (m : Metadata) (fs : List Finding) :
    ∀ pr ∈ (buildState aid m fs).dirNodes, pr.1 ∈ dirPathsOf m := by
  have hfold : ∀ (l : List FileMeta) (st : BuildState),
      (∀ f ∈ l, f ∈ m.files.take 200) →
      (∀ pr ∈ st.dirNodes, pr.1 ∈ dirPathsOf m) →
      ∀ pr ∈ (l.foldl (fileStep aid fs) st).dirNodes, pr.1 ∈ dirPathsOf m := by
    intro l
    induction l with
    | nil => intro st _ h; exact h
    | cons f l2 ih =>
      intro st hsub h
      rw [List.foldl_cons]
      refine ih _ (fun g hg => hsub g (List.mem_cons_of_mem _ hg)) ?_
      obtain ⟨newN, newE, newD, pid, hN, hE, hD, hpair, htypes, hDfacts,
        hDnodup, hEfacts, hEperm, hpid⟩ := fileStep_spec aid fs st f
      intro pr hpr
      rw [hD] at hpr
      rcases List.mem_append.1 hpr with h2 | h2
      · exact h pr h2
      · obtain ⟨_, hchain, _⟩ := hDfacts pr h2
        unfold dirPathsOf
        refine List.mem_cons_of_mem _ ?_
        rw [List.mem_flatMap]
        exact ⟨f, hsub f (List.mem_cons_self _ _), hchain⟩
  intro pr hpr
  have hdir : (buildState aid m fs).dirNodes
      = ((m.files.take 200).foldl (fileStep aid fs) (ensureDir aid {} "/").1).dirNodes := rfl
  rw [hdir] at hpr
  refine hfold _ _ (fun g hg => hg) ?_ pr hpr
  obtain ⟨newN, newE, newD, hN, hE, hD, hpair, htypes, hDfacts, hDnodup,
    hEfacts, hEperm, hret⟩ := ensureDir_spec aid {} "/"
  intro pr2 hpr2
  rw [hD] at hpr2
  simp only [BuildState.dirNodes, List.nil_append] at hpr2
  obtain ⟨_, hchain, _, _⟩ := hDfacts pr2 hpr2
  rw [ancestorChainPy] at hchain
  simp only [dif_pos] at hchain
  simp only [List.mem_singleton] at hchain
  rw [hchain]
  exact List.mem_cons_self _ _

/-- Node ids are deterministic functions of the node's logical identity. -/
theorem buildState_node_ids (aid : String) (m : Metadata) (fs : List Finding) :
    ∀ n ∈ (buildState aid m fs).nodes,
      (n.type = "directory" → n.id = dirId aid n.path ∧ n.path ∈ dirPathsOf m) ∧
      (n.type = "file" → n.id = fileId aid n.path) ∧
      (n.type = "package" → n.id = pkgId aid n.metaName) := by
  obtain ⟨him, _, hco, _, _, _⟩ := buildState_invariants aid m fs
  intro n hn
  refine ⟨?_, ?_, ?_⟩
  · intro ht
    have hmem : (n.path, n.id) ∈ (buildState aid m fs).dirNodes := by
      unfold Dcorr at hco
      rw [← hco]
      refine List.mem_map_of_mem _ ?_
      rw [List.mem_filter]
      exact ⟨hn, by simp [ht]⟩
    exact ⟨him (n.path, n.id) hmem, buildState_keys_sub aid m fs _ hmem⟩
  · intro ht
    have hmem : n ∈ ((buildState aid m fs).nodes.filter (fun x => x.type == "file")) := by
      rw [List.mem_filter]
      exact ⟨hn, by simp [ht]⟩
    rw [buildState_file_nodes] at hmem
    simp only [List.mem_map] at hmem
    obtain ⟨f, _, rfl⟩ := hmem
    rfl
  · intro ht
    have hmem : n ∈ ((buildState aid m fs).nodes.filter (fun x => x.type == "package")) := by
      rw [List.mem_filter]
      exact ⟨hn, by simp [ht]⟩
    rw [buildState_pkg_nodes] at hmem
    simp only [List.mem_map] at hmem
    obtain ⟨d, _, rfl⟩ := hmem
    rfl

theorem buildState_keys_sub_keys (aid : String) (m : Metadata) (fs : List Finding) :
    ∀ k ∈ (buildState aid m fs).dirNodes.map Prod.fst, k ∈ dirPathsOf m := by
  intro k hk
  simp only [List.mem_map] at hk
  obtain ⟨pr, hpr, rfl⟩ := hk
  exact buildState_keys_sub aid m fs pr hpr

/-- Under collision-freedom of the sanitized identities, the node ids of the
built graph are pairwise distinct. -/
theorem buildState_ids_nodup (aid : String) (m : Metadata) (fs : List Finding)
    (Hdir : ∀ p ∈ dirPathsOf m, ∀ q ∈ dirPathsOf m, dirId aid p = dirId aid q → p = q)
    (Hfile : ((m.files.take 200).map (fun f => fileId aid f.path)).Nodup)
    (Hpkg : ((m.dependencies.take 50).map (fun d => pkgId aid d.name)).Nodup) :
    ((buildState aid m fs).nodes.map (fun n => n.id)).Nodup := by
  obtain ⟨him, hnd, hco, _, _, _⟩ := buildState_invariants aid m fs
  set l := (buildState aid m fs).nodes with hl
  have hperm1 : (l.filter (fun n => n.type == "directory")
      ++ l.filter (fun n => !(n.type == "directory"))).Perm l :=
    List.filter_append_perm _ _
  have hperm2 : ((l.filter (fun n => !(n.type == "directory"))).filter
        (fun n => n.type == "file")
      ++ (l.filter (fun n => !(n.type == "directory"))).filter
        (fun n => !(n.type == "file"))).Perm
      (l.filter (fun n => !(n.type == "directory"))) :=
    List.filter_append_perm _ _
  have hfileF : (l.filter (fun n => !(n.type == "directory"))).filter
      (fun n => n.type == "file") = l.filter (fun n => n.type == "file") := by
    rw [List.filter_filter]
    refine List.filter_congr ?_
    intro n _
    by_cases h : n.type = "file" <;> simp [h]
  have hpkgF : (l.filter (fun n => !(n.type == "directory"))).filter
      (fun n => !(n.type == "file")) = l.filter (fun n => n.type == "package") := by
    rw [List.filter_filter]
    refine List.filter_congr ?_
    intro n hn
    rcases buildState_types aid m fs n (hl ▸ hn) with h | h | h <;> simp [h]
  have hperm : (l.filter (fun n => n.type == "directory")
      ++ (l.filter (fun n => n.type == "file")
        ++ l.filter (fun n => n.type == "package"))).Perm l := by
    refine List.Perm.trans ?_ hperm1
    refine List.Perm.append_left _ ?_
    rw [hfileF, hpkgF] at hperm2
    exact hperm2
  -- ids of the three families
  have hdir_ids : (l.filter (fun n => n.type == "directory")).map (fun n => n.id)
      = ((buildState aid m fs).dirNodes.map Prod.fst).map (dirId aid) := by
    have h1 := congrArg (List.map Prod.snd) hco
    rw [List.map_map] at h1
    have h2 : ((buildState aid m fs).nodes.filter
        (fun n => n.type == "directory")).map
          (Prod.snd ∘ fun n => (n.path, n.id))
        = ((buildState aid m fs).nodes.filter
        (fun n => n.type == "directory")).map (fun n => n.id) := rfl
    rw [h2] at h1
    rw [hl, h1, List.map_map]
    refine List.map_congr_left ?_
    intro pr hpr
    exact him pr hpr
  have hfile_ids : (l.filter (fun n => n.type == "file")).map (fun n => n.id)
      = (m.files.take 200).map (fun f => fileId aid f.path) := by
    rw [hl, buildState_file_nodes, List.map_map]
    rfl
  have hpkg_ids : (l.filter (fun n => n.type == "package")).map (fun n => n.id)
      = (m.dependencies.take 50).map (fun d => pkgId aid d.name) := by
    rw [hl, buildState_pkg_nodes, List.map_map]
    rfl
  have hdir_nodup : ((l.filter (fun n => n.type == "directory")).map
      (fun n => n.id)).Nodup := by
    rw [hdir_ids]
    refine List.Nodup.map_on ?_ hnd
    intro x hx y hy hxy
    exact Hdir x (buildState_keys_sub_keys aid m fs x hx)
      y (buildState_keys_sub_keys aid m fs y hy) hxy
  have hfile_nodup : ((l.filter (fun n => n.type == "file")).map
      (fun n => n.id)).Nodup := by
    rw [hfile_ids]
    exact Hfile
  have hpkg_nodup : ((l.filter (fun n => n.type == "package")).map
      (fun n => n.id)).Nodup := by
    rw [hpkg_ids]
    exact Hpkg
  have hperm_ids := hperm.map (fun n => n.id)
  refine hperm_ids.nodup ?_
  rw [List.map_append, List.map_append]
  refine List.Nodup.append hdir_nodup
    (List.Nodup.append hfile_nodup hpkg_nodup ?_) ?_
  · intro a ha hb
    rw [hfile_ids] at ha
    rw [hpkg_ids] at hb
    simp only [List.mem_map] at ha hb
    obtain ⟨f, _, rfl⟩ := ha
    obtain ⟨d, _, hd⟩ := hb
    exact fileId_ne_pkgId aid f.path d.name hd.symm
  · intro a ha hb
    rw [hdir_ids] at ha
    simp only [List.mem_map] at ha
    obtain ⟨k, _, rfl⟩ := ha
    rcases List.mem_append.1 hb with hb2 | hb2
    · rw [hfile_ids] at hb2
      simp only [List.mem_map] at hb2
      obtain ⟨f, _, hf⟩ := hb2
      exact dirId_ne_fileId aid k f.path hf.symm
    · rw [hpkg_ids] at hb2
      simp only [List.mem_map] at hb2
      obtain ⟨d, _, hd⟩ := hb2
      exact dirId_ne_pkgId aid k d.name hd.symm

/-!
### Uniqueness of edge (source, target) pairs
-/

/-- Memoized keys stay inside `dirPathsOf`. -/
def Kdom (m : Metadata) (st : BuildState) : Prop :=
  ∀ pr ∈ st.dirNodes, pr.1 ∈ dirPathsOf m

/-- Edge targets are pairwise distinct, and every edge target is either a
memoized directory id or the file id of an already processed file. -/
def EdgeTargets (aid : String) (processed : List FileMeta) (st : BuildState) : Prop :=
  ((st.edges.map (fun e => e.target)).Nodup) ∧
  (∀ e ∈ st.edges, (∃ pr ∈ st.dirNodes, e.target = pr.2)
    ∨ (∃ f0 ∈ processed, e.target = fileId aid f0.path))

theorem fileStep_Kdom (aid : String) (m : Metadata) (fsx : List Finding)
    (st : BuildState) (f : FileMeta) (hfmem : f ∈ m.files.take 200)
    (h : Kdom m st) : Kdom m (fileStep aid fsx st f) := by
  obtain ⟨newN, newE, newD, pid, hN, hE, hD, hpair, htypes, hDfacts, hDnodup,
    hEfacts, hEperm, hpid⟩ := fileStep_spec aid fsx st f
  intro pr hpr
  rw [hD] at hpr
  rcases List.mem_append.1 hpr with h2 | h2
  · exact h pr h2
  · obtain ⟨_, hchain, _⟩ := hDfacts pr h2
    unfold dirPathsOf
    refine List.mem_cons_of_mem _ ?_
    rw [List.mem_flatMap]
    exact ⟨f, hfmem, hchain⟩

theorem fileStep_edge_targets (aid : String) (m : Metadata) (fsx : List Finding)
    (Hdir : ∀ p ∈ dirPathsOf m, ∀ q ∈ dirPathsOf m,
      dirId aid p = dirId aid q → p = q)
    (st : BuildState) (f : FileMeta) (processed : List FileMeta)
    (hfmem : f ∈ m.files.take 200)
    (hfnew : fileId aid f.path ∉ processed.map (fun g => fileId aid g.path))
    (him : Imap aid st) (hkd : Kdom m st)
    (het : EdgeTargets aid processed st) :
    EdgeTargets aid (processed ++ [f]) (fileStep aid fsx st f) := by
  obtain ⟨newN, newE, newD, pid, hN, hE, hD, hpair, htypes, hDfacts, hDnodup,
    hEfacts, hEperm, hpid⟩ := fileStep_spec aid fsx st f
  have hnewKeys : ∀ pr ∈ newD, pr.1 ∈ dirPathsOf m := by
    intro pr hpr
    obtain ⟨_, hchain, _⟩ := hDfacts pr hpr
    unfold dirPathsOf
    refine List.mem_cons_of_mem _ ?_
    rw [List.mem_flatMap]
    exact ⟨f, hfmem, hchain⟩
  -- the new directory-edge targets are distinct dirIds of fresh keys
  have hnewT_shape : ∀ a ∈ newE.map (fun e => e.target),
      ∃ k, k ∈ dirPathsOf m ∧ k ∉ st.dirNodes.map Prod.fst ∧ a = dirId aid k := by
    intro a ha
    simp only [List.mem_map] at ha
    obtain ⟨e, he, rfl⟩ := ha
    obtain ⟨_, _, _, ⟨pr, hpr, ht⟩⟩ := hEfacts e he
    exact ⟨pr.1, hnewKeys pr hpr, (hDfacts pr hpr).2.2,
      by rw [ht, (hDfacts pr hpr).1]⟩
  have hfilter_nodup : (((newD.filter (fun pr => ¬ pr.1 = "/")).map Prod.snd)).Nodup := by
    have hkeysub : (newD.filter (fun pr => ¬ pr.1 = "/")).map Prod.fst |>.Sublist
        (newD.map Prod.fst) := (List.filter_sublist _).map _
    have hkeys_nodup : ((newD.filter (fun pr => ¬ pr.1 = "/")).map Prod.fst).Nodup :=
      hDnodup.sublist hkeysub
    have heq : (newD.filter (fun pr => ¬ pr.1 = "/")).map Prod.snd
        = ((newD.filter (fun pr => ¬ pr.1 = "/")).map Prod.fst).map (dirId aid) := by
      rw [List.map_map]
      refine List.map_congr_left ?_
      intro pr hpr
      exact (hDfacts pr (List.mem_of_mem_filter hpr)).1
    rw [heq]
    refine List.Nodup.map_on ?_ hkeys_nodup
    intro x hx y hy hxy
    simp only [List.mem_map] at hx hy
    obtain ⟨prx, hprx, rfl⟩ := hx
    obtain ⟨pry, hpry, rfl⟩ := hy
    exact Hdir _ (hnewKeys prx (List.mem_of_mem_filter hprx))
      _ (hnewKeys pry (List.mem_of_mem_filter hpry)) hxy
  have hnewT_nodup : (newE.map (fun e => e.target)).Nodup := by
    exact hEperm.symm.nodup hfilter_nodup
  obtain ⟨hold_nodup, hold_char⟩ := het
  constructor
  · -- target list of the new edges
    rw [hE]
    simp only [List.map_append, List.map_cons, List.map_nil]
    refine List.Nodup.append (List.Nodup.append hold_nodup hnewT_nodup ?_) ?_ ?_
    · -- old targets are disjoint from new directory targets
      intro a ha hb
      obtain ⟨k, hk1, hk2, rfl⟩ := hnewT_shape a hb
      simp only [List.mem_map] at ha
      obtain ⟨e, he, ht⟩ := ha
      rcases hold_char e he with ⟨pr, hpr, hte⟩ | ⟨f0, hf0, hte⟩
      · have h1 : pr.2 = dirId aid pr.1 := him pr hpr
        have h2 : pr.1 = k := Hdir pr.1 (hkd pr hpr) k hk1 (by rw [← h1, ← hte, ht])
        exact hk2 (h2 ▸ List.mem_map_of_mem Prod.fst hpr)
      · exact dirId_ne_fileId aid k f0.path (by rw [← ht, hte])
    · -- the file edge's target is a single fresh file id
      simp only [List.nodup_cons]
      exact ⟨List.not_mem_nil _, List.nodup_nil⟩
    · -- neither old nor new directory targets equal the new file id
      intro a ha hb
      simp only [List.mem_singleton] at hb
      subst hb
      rcases List.mem_append.1 ha with h2 | h2
      · simp only [List.mem_map] at h2
        obtain ⟨e, he, ht⟩ := h2
        rcases hold_char e he with ⟨pr, hpr, hte⟩ | ⟨f0, hf0, hte⟩
        · exact dirId_ne_fileId aid pr.1 f.path (by rw [← him pr hpr, ← hte, ht])
        · refine hfnew ?_
          rw [← ht, hte]
          exact List.mem_map_of_mem _ hf0
      · obtain ⟨k, _, _, hk⟩ := hnewT_shape _ h2
        exact dirId_ne_fileId aid k f.path hk.symm
  · intro e he
    rw [hE] at he
    rcases List.mem_append.1 he with h2 | h2
    · rcases List.mem_append.1 h2 with h3 | h3
      · rcases hold_char e h3 with ⟨pr, hpr, hte⟩ | ⟨f0, hf0, hte⟩
        · exact Or.inl ⟨pr, by rw [hD]; exact List.mem_append_left _ hpr, hte⟩
        · exact Or.inr ⟨f0, List.mem_append_left _ hf0, hte⟩
      · obtain ⟨_, _, _, ⟨pr, hpr, ht⟩⟩ := hEfacts e h3
        exact Or.inl ⟨pr, by rw [hD]; exact List.mem_append_right _ hpr, ht⟩
    · simp only [List.mem_singleton] at h2
      subst h2
      exact Or.inr ⟨f, List.mem_append_right _ (List.mem_singleton_self _), rfl⟩

theorem foldl_edge_targets (aid : String) (m : Metadata) (fsx : List Finding)
    (Hdir : ∀ p ∈ dirPathsOf m, ∀ q ∈ dirPathsOf m,
      dirId aid p = dirId aid q → p = q)
    (Hfile : ((m.files.take 200).map (fun f => fileId aid f.path)).Nodup) :
    ∀ (l processed : List FileMeta) (st : BuildState),
      processed ++ l = m.files.take 200 →
      Imap aid st → Kdom m st → EdgeTargets aid processed st →
      EdgeTargets aid (processed ++ l) (l.foldl (fileStep aid fsx) st) := by
  intro l
  induction l with
  | nil =>
    intro processed st heq h1 h2 h3
    simpa using h3
  | cons f rest ih =>
    intro processed st heq h1 h2 h3
    rw [List.foldl_cons]
    have hfmem : f ∈ m.files.take 200 := by
      rw [← heq]
      exact List.mem_append_right _ (List.mem_cons_self _ _)
    have hfnew : fileId aid f.path ∉ processed.map (fun g => fileId aid g.path) := by
      intro hmem
      have h4 := Hfile
      rw [← heq, List.map_append] at h4
      exact (List.disjoint_of_nodup_append h4) hmem (by simp)
    have hstep := fileStep_edge_targets aid m fsx Hdir st f processed hfmem
      hfnew h1 h2 h3
    have heq2 : (processed ++ [f]) ++ rest = m.files.take 200 := by
      rw [← heq]
      simp
    have hres := ih (processed ++ [f]) (fileStep aid fsx st f) heq2
      (fileStep_Imap aid fsx st f h1) (fileStep_Kdom aid m fsx st f hfmem h2) hstep
    rw [List.append_assoc] at hres
    simpa using hres

/-- Under collision-freedom of the sanitized identities, the edge targets of
the built graph are pairwise distinct (every node is the target of at most
one `contains` edge — the tree property). -/
theorem buildState_edge_targets_nodup (aid : String) (m : Metadata)
    (fs : List Finding)
    (Hdir : ∀ p ∈ dirPathsOf m, ∀ q ∈ dirPathsOf m,
      dirId aid p = dirId aid q → p = q)
    (Hfile : ((m.files.take 200).map (fun f => fileId aid f.path)).Nodup) :
    ((buildState aid m fs).edges.map (fun e => e.target)).Nodup := by
  obtain ⟨newN, newE, newD, hN, hE, hD, hpair, htypes, hDfacts, hDnodup,
    hEfacts, hEperm, hret⟩ := ensureDir_spec aid {} "/"
  have hkeys : ∀ pr ∈ newD, pr.1 = "/" := by
    intro pr hpr
    have hchain := (hDfacts pr hpr).2.1
    rw [ancestorChainPy] at hchain
    simp only [dif_pos] at hchain
    simpa using hchain
  have hfilter : newD.filter (fun pr => ¬ pr.1 = "/") = [] := by
    rw [List.filter_eq_nil_iff]
    intro pr hpr
    simp [hkeys pr hpr]
  have hTnil : newE.map (fun e => e.target) = [] := by
    rw [hfilter] at hEperm
    simpa using hEperm.eq_nil
  have hedges0 : (ensureDir aid {} "/").1.edges = newE := by
    rw [hE]
    rfl
  have het0 : EdgeTargets aid [] (ensureDir aid {} "/").1 := by
    constructor
    · rw [hedges0, hTnil]
      exact List.nodup_nil
    · intro e he
      rw [hedges0] at he
      obtain ⟨_, _, _, ⟨pr, hpr, ht⟩⟩ := hEfacts e he
      refine Or.inl ⟨pr, ?_, ht⟩
      rw [hD]
      exact List.mem_append_right _ hpr
  have him0 : Imap aid (ensureDir aid {} "/").1 :=
    ensureDir_Imap aid {} "/" (fun pr hpr => absurd hpr (List.not_mem_nil _))
  have hkd0 : Kdom m (ensureDir aid {} "/").1 := by
    intro pr hpr
    rw [hD] at hpr
    simp only [BuildState.dirNodes, List.nil_append] at hpr
    rw [hkeys pr hpr]
    exact List.mem_cons_self _ _
  have hfold := foldl_edge_targets aid m fs Hdir Hfile (m.files.take 200) []
    (ensureDir aid {} "/").1 rfl him0 hkd0 het0
  exact hfold.1

/-- C5 (amended): the graph builder's node and edge ids are deterministic
functions of their logical identity (in particular two runs on the same
inputs produce identical graphs, and a file node's id is `fileId` of its
path alone), and — provided the sanitized identities collide nowhere
(`_safe_id` images of the involved directory paths pairwise distinct and
distinct from the reserved root id, file-path images distinct, package-name
images distinct) — node ids are pairwise distinct and every node is the
target of at most one `contains` edge, so edge (source, target) pairs are
pairwise distinct as well. -/
theorem c5_ids_unique (aid : String) (m : Metadata) (fs : List Finding) (c : Bool)
    (Hdir : ∀ p ∈ dirPathsOf m, ∀ q ∈ dirPathsOf m,
      dirId aid p = dirId aid q → p = q)
    (Hfile : ((m.files.take 200).map (fun f => fileId aid f.path)).Nodup)
    (Hpkg : ((m.dependencies.take 50).map (fun d => pkgId aid d.name)).Nodup) :
    (((build_neo4j_graph aid m fs c).1.nodes.map (fun n => n.id)).Nodup) ∧
    (((build_neo4j_graph aid m fs c).1.edges.map
        (fun e => (e.source, e.target))).Nodup) ∧
    (∀ n ∈ (build_neo4j_graph aid m fs c).1.nodes,
      (n.type = "directory" → n.id = dirId aid n.path) ∧
      (n.type = "file" → n.id = fileId aid n.path) ∧
      (n.type = "package" → n.id = pkgId aid n.metaName)) := by
  have hnodes : (build_neo4j_graph aid m fs c).1.nodes
      = (buildState aid m fs).nodes := rfl
  have hedges : (build_neo4j_graph aid m fs c).1.edges
      = (buildState aid m fs).edges := rfl
  refine ⟨?_, ?_, ?_⟩
  · rw [hnodes]
    exact buildState_ids_nodup aid m fs Hdir Hfile Hpkg
  · rw [hedges]
    have ht := buildState_edge_targets_nodup aid m fs Hdir Hfile
    have hmap : ((buildState aid m fs).edges.map
        (fun e => (e.source, e.target))).map Prod.snd
        = (buildState aid m fs).edges.map (fun e => e.target) := by
      rw [List.map_map]
      rfl
    exact List.Nodup.of_map Prod.snd (hmap ▸ ht)
  · intro n hn
    rw [hnodes] at hn
    obtain ⟨h1, h2, h3⟩ := buildState_node_ids aid m fs n hn
    exact ⟨fun ht => (h1 ht).1, h2, h3⟩

/-- C5 counterexample: the distinct file paths `a/b` and `a.b` sanitize to
the same `_safe_id`, so the builder produces two file nodes with the same id
`file_A_a_b` — node ids are not unique for every metadata. -/
theorem c5_counterexample :
    ¬ (((build_neo4j_graph "A"
        { files := [{ path := "a/b", name := "b" },
                    { path := "a.b", name := "a.b" }] } [] false).1.nodes.map
      (fun n => n.id)).Nodup) := by
  simp +decide [build_neo4j_graph, buildState, fileStep, ensureDir,
    parentPathPy, pySplit, pyJoin, splitCharList, fileNodeOf, dirNodeOf,
    dirId, fileId, pkgId, rootId, safe_id, replaceChar]

/-- Witness for the amended C5 theorem at a concrete collision-free input. -/
theorem c5_ids_unique_witness :
    (((build_neo4j_graph "A"
        { files := [{ path := "a.py", name := "a.py" }],
          dependencies := [{ name := "x", version := "1" }] } [] false).1.nodes.map
      (fun n => n.id)).Nodup) ∧
    (((build_neo4j_graph "A"
        { files := [{ path := "a.py", name := "a.py" }],
          dependencies := [{ name := "x", version := "1" }] } [] false).1.edges.map
      (fun e => (e.source, e.target))).Nodup) := by
  have hchain : ancestorChainPy "/" = ["/"] := by
    rw [ancestorChainPy]
    simp
  have hpar : parentPathPy "a.py" = "/" := by
    simp +decide [parentPathPy, pySplit, pyJoin, splitCharList]
  have hdp : dirPathsOf
      { files := [{ path := "a.py", name := "a.py" }],
        dependencies := [{ name := "x", version := "1" }] }
      = ["/", "/"] := by
    simp [dirPathsOf, hpar, hchain]
  have h := c5_ids_unique "A"
    { files := [{ path := "a.py", name := "a.py" }],
      dependencies := [{ name := "x", version := "1" }] } [] false
    (by
      rw [hdp]
      decide)
    (by decide)
    (by decide)
  exact ⟨h.1, h.2.1⟩

end GraphBuild

namespace Engine

open Pipeline GraphBuild ToolLogger

/-!
## The pipeline engine (`run_pipeline`, pipeline.py:46-194)

External effects are supplied by an `Env`: the git clone outcome, the
filesystem metadata the ingestor reads, each provider's availability, and the
outcome of every provider call — `Except.error` standing for a raised
exception, `Except.ok` carrying the value the in-`try` parsing of the
response produces (payload parsing shares the `try` block of its call in the
source, so a parse failure is the same as a call failure).  Each stage helper
below mirrors the availability guards and `try/except` structure of its
source function; category values assigned before a mid-loop classification
failure are not tracked (no claim observes them).  Database status writes and
the final persisted record are modeled directly in `RunResult`; the
relational store itself is an external collaborator assumed to accept the
writes. -/

/-- `AnalysisStatus` (models.py:13-20). -/
inductive AnalysisStatus where
  | queued
  | cloning
  | mapping
  | analyzing
  | completing
  | completed
  | failed
  deriving Repr, DecidableEq

/-- One websocket broadcast, as issued by the `_ws*` helpers
(pipeline.py:1753-1819). -/
inductive Ev where
  | status (agent status_ : String) (progress : Rat) (message : String)
  | finding (f : Finding)
  | graphNode (n : GNode)
  | graphEdge (e : GEdge)
  | toolActivity (agent message provider : String)
  | complete (health : HealthScore) (critical warnings info total : Nat)
  | error (message : String)
  deriving Repr, DecidableEq

/-- A fix dict as produced by `_generate_fixes`/`_fallback_fixes`. -/
structure Fix where
  id : String
  priority : Nat := 0
  title : String := ""
  severity : String := "info"
  type : String := "code_patch"
  findingsResolved : List String := []
  deriving Repr, DecidableEq

/-- One result item of a Tavily search (`url` is all the pipeline reads). -/
structure CveResultItem where
  url : String := ""
  content : String := ""
  deriving Repr, DecidableEq

/-- One batch appended by `_tavily_cve_search` (pipeline.py:564-569). -/
structure CveBatch where
  packages : List String := []
  query : String := ""
  answer : String := ""
  results : List CveResultItem := []
  deriving Repr, DecidableEq

/-- A Tavily search response as read by `_tavily_best_practices_search`. -/
structure SearchResult where
  answer : String := ""
  results : List CveResultItem := []
  deriving Repr, DecidableEq

/-- One research entry of `_tavily_best_practices_research`
(pipeline.py:894). -/
structure BpResearch where
  query : String := ""
  answer : String := ""
  results : List CveResultItem := []
  deriving Repr, DecidableEq

/-- The external world of one pipeline run. -/
structure Env where
  analysis_id : String
  cloneReturncode : Int
  cloneStderr : String
  metadata0 : Metadata
  fastino_available : Bool
  openai_available : Bool
  tavily_available : Bool
  yutori_available : Bool
  neo4j_connected : Bool
  fastinoClassifyOutcome : Except PyErr (String → String)
  openaiClassifyOutcome : Except PyErr (List (String × String))
  cveSearchOutcome : Nat → Except PyErr CveBatch
  tavilyExtractOutcome : Except PyErr (List String)
  fastinoEntitiesOutcome : Except PyErr (List Finding)
  bpStackSearch : Except PyErr SearchResult
  bpMisconfigSearch : Except PyErr SearchResult
  bpChatOutcome : Except PyErr (List Finding)
  bpFallbackFindings : List Finding
  bpResearchOutcome : Nat → Except PyErr (Option BpResearch)
  bpExtractOutcome : Except PyErr String
  fastinoQualityOutcome : Except PyErr (List Finding)
  qualitySamplesEmpty : Bool
  openaiQualityOutcome : Except PyErr (List Finding)
  yutoriResearchOutcome : Except PyErr (List Finding)
  openaiResearchOutcome : Except PyErr Unit
  openaiAnalyzeOutcome : Except PyErr (List Finding)
  openaiFixOutcome : Except PyErr (List Fix)

/-- `_heuristic_classify(path, ext)` (pipeline.py:515-530). -/
def heuristic_classify (path ext : String) : String :=
  let p := path.toLower
  if ["test", "spec", "__test__", ".test."].any (fun x => strContains p x) then "test"
  else if [".config", "tsconfig", "eslint", ".env", "docker", "compose",
      "makefile"].any (fun x => strContains p x) then "config"
  else if [".md", ".rst", ".txt", ".adoc"].contains ext then "docs"
  else if [".png", ".jpg", ".svg", ".ico", ".gif", ".woff", ".ttf"].contains ext
    then "assets"
  else if [".github/workflows", "ci", "jenkinsfile"].any (fun x => strContains p x)
    then "ci-cd"
  else if [".py", ".js", ".ts", ".tsx", ".jsx", ".go", ".rs", ".java", ".rb",
      ".php"].contains ext then "source"
  else "unknown"

/-- Category assignment to the first 100 files (the in-place mutation of
`files_to_classify`). -/
def applyCategories (metadata : Metadata) (cat : FileMeta → String) : Metadata :=
  { metadata with files :=
      (metadata.files.take 100).map (fun f => { f with category := cat f })
      ++ metadata.files.drop 100 }

/-- `_classify_files` (pipeline.py:431-512): Fastino per-file classification
inside one `try`, OpenAI batch fallback inside a second `try`, heuristic last
resort. -/
def classify_files (env : Env) (metadata : Metadata) : Metadata :=
  if metadata.files.take 100 = [] then metadata
  else
    match (if env.fastino_available then env.fastinoClassifyOutcome.toOption
      else none) with
    | some labelOf => applyCategories metadata (fun f => labelOf f.path)
    | none =>
      match (if env.openai_available then env.openaiClassifyOutcome.toOption
        else none) with
      | some cat_map =>
          applyCategories metadata (fun f => (cat_map.lookup f.path).getD "unknown")
      | none =>
          applyCategories metadata (fun f => heuristic_classify f.path f.extension)

/-- `_tavily_cve_search` (pipeline.py:537-573): one `try` per batch of 3
non-dev dependencies (at most 18 → 6 batches); failed batches are skipped. -/
def tavily_cve_search (env : Env) (metadata : Metadata) : List CveBatch :=
  if ¬ env.tavily_available then []
  else
    let non_dev := metadata.dependencies.filter (fun d => ¬ d.is_dev)
    (List.range ((min non_dev.length 18 + 2) / 3)).filterMap
      (fun i => (env.cveSearchOutcome i).toOption)

/-- `list(dict.fromkeys(urls))`: order-preserving dedup. -/
def dedupKeepFirst (l : List String) : List String :=
  l.foldl (fun acc u => if acc.contains u then acc else acc ++ [u]) []

/-- `_tavily_extract_and_fastino_cve` (pipeline.py:576-661). -/
def tavily_extract_and_fastino_cve (env : Env) (cve_results : List CveBatch) :
    List Finding :=
  let urls0 := cve_results.flatMap
    (fun b => (b.results.take 2).filterMap
      (fun r => if r.url ≠ "" then some r.url else none))
  let urls := (dedupKeepFirst urls0).take 5
  if urls = [] ∨ ¬ env.tavily_available then []
  else
    let extracted_texts :=
      match env.tavilyExtractOutcome with
      | Except.ok texts => texts
      | Except.error _ => []
    let joined := String.intercalate "\n\n" extracted_texts
    let combined :=
      if joined ≠ "" then joined
      else (String.intercalate " " (cve_results.map (fun b => b.answer))).take 12000
    if combined.trim = "" ∨ ¬ env.fastino_available then []
    else
      match env.fastinoEntitiesOutcome with
      | Except.ok fnds => fnds
      | Except.error _ => []

/-- `_tavily_best_practices_search` (pipeline.py:668-827): two guarded
searches each in a `try`, an OpenAI findings pass in a `try`, and a
context-note fallback when no findings were produced. -/
def tavily_best_practices_search (env : Env) (metadata : Metadata) :
    List Finding :=
  if ¬ env.tavily_available then []
  else
    let stack_str := String.intercalate ", "
      (metadata.detected_stack.languages ++ metadata.detected_stack.frameworks)
    let search_results : List SearchResult :=
      (if stack_str ≠ "" then env.bpStackSearch.toOption.toList else [])
      ++ env.bpMisconfigSearch.toOption.toList
    if search_results = [] ∧ ¬ env.openai_available then []
    else
      let findings :=
        if env.openai_available then
          match env.bpChatOutcome with
          | Except.ok fnds => fnds
          | Except.error _ => []
        else []
      if findings = [] then env.bpFallbackFindings else findings

/-- The high-risk package names of pipeline.py:859-867. -/
def highRiskNames : List String :=
  ["express", "django", "flask", "fastapi", "spring", "rails",
   "lodash", "axios", "requests", "urllib3", "serialize",
   "jsonwebtoken", "jwt", "passport", "bcrypt", "crypto",
   "multer", "formidable", "sequelize", "mongoose", "typeorm"]

/-- `_tavily_best_practices_research` (pipeline.py:830-898): up to five
queries, one `try` each; only answers with content are appended. -/
def tavily_best_practices_research (env : Env) (metadata : Metadata) :
    List BpResearch :=
  if ¬ env.tavily_available then []
  else
    let high_risk_pkgs := ((metadata.dependencies.filter
      (fun d => ¬ d.is_dev ∧ highRiskNames.contains d.name.toLower)).map
        (fun d => d.name)).take 4
    let queriesCount := (metadata.detected_stack.frameworks.take 3).length
      + (metadata.detected_stack.languages.take 2).length
      + (if high_risk_pkgs ≠ [] then 1 else 0) + 1
    (List.range (min queriesCount 5)).filterMap
      (fun i =>
        match env.bpResearchOutcome i with
        | Except.ok r => r
        | Except.error _ => none)

/-- The trusted source domains of pipeline.py:909-910. -/
def trustedDomains : List String :=
  ["owasp.org", "cheatsheetseries.owasp.org", "snyk.io",
   "portswigger.net", "cwe.mitre.org", "sans.org", "nvd.nist.gov"]

/-- `_tavily_extract_best_practices` (pipeline.py:901-951). -/
def tavily_extract_best_practices (env : Env) (best_practices : List BpResearch) :
    String :=
  if best_practices = [] ∨ ¬ env.tavily_available then ""
  else
    let trusted_urls := best_practices.flatMap
      (fun item => (item.results.take 2).filterMap
        (fun r => if r.url ≠ "" ∧ trustedDomains.any (fun d => strContains r.url d)
          then some r.url else none))
    let other_urls := best_practices.flatMap
      (fun item => (item.results.take 2).filterMap
        (fun r => if r.url ≠ "" ∧ ¬ trusted_urls.contains r.url
          then some r.url else none))
    let urls := (dedupKeepFirst (trusted_urls ++ other_urls)).take 6
    let extracted_text :=
      if urls ≠ [] then
        match env.bpExtractOutcome with
        | Except.ok t => t
        | Except.error _ => ""
      else ""
    if extracted_text.trim = "" then
      (String.intercalate "\n\n" ((best_practices.filter
        (fun item => item.answer ≠ "")).map
          (fun item => "[" ++ item.query ++ "]\n" ++ item.answer))).take 8000
    else extracted_text

/-- `_openai_code_quality` (pipeline.py:1032-1137): empty when no readable
samples or unavailable; otherwise one `try` around the chat call. -/
def openai_code_quality (env : Env) (source_files : List FileMeta) :
    List Finding :=
  if source_files = [] ∨ ¬ env.openai_available then []
  else if env.qualitySamplesEmpty then []
  else
    match env.openaiQualityOutcome with
    | Except.ok fnds => fnds
    | Except.error _ => []

/-- `_code_quality_analysis` (pipeline.py:958-978): Fastino first (one
`try`), OpenAI fallback. -/
def code_quality_analysis (env : Env) (metadata : Metadata) : List Finding :=
  let source_files := metadata.files.filter (fun f => f.category = "source")
  if source_files = [] then []
  else if env.fastino_available then
    match env.fastinoQualityOutcome with
    | Except.ok fnds => fnds
    | Except.error _ => openai_code_quality env source_files
  else openai_code_quality env source_files

/-- `_deep_research` (pipeline.py:1144-1206): Yutori first; a non-empty
finding list is returned as-is (a Python list), every other path returns a
dict — which `_merge_findings` later skips as a non-list. -/
def deep_research (env : Env) : MergeSrc :=
  let openaiFallback : MergeSrc := MergeSrc.nonlist
  if env.yutori_available then
    match env.yutoriResearchOutcome with
    | Except.ok fnds =>
        if fnds ≠ [] then MergeSrc.lst (fnds.map MergeItem.dict) else openaiFallback
    | Except.error _ => openaiFallback
  else openaiFallback

/-- `_openai_analyze` (pipeline.py:1286-1424): one `try` around the chat
call, `[]` on failure. -/
def openai_analyze (env : Env) : List Finding :=
  match env.openaiAnalyzeOutcome with
  | Except.ok fnds => fnds
  | Except.error _ => []

/-- `f"fix_{i:03d}"`. -/
def fixIdOf (i : Nat) : String :=
  let s := toString i
  if i < 10 then "fix_00" ++ s else if i < 100 then "fix_0" ++ s else "fix_" ++ s

/-- `_fallback_fixes` (pipeline.py:1485-1504). -/
def fallback_fixes (findings : List Finding) : List Fix :=
  (findings.take 10).enum.map
    (fun pr =>
      { id := fixIdOf (pr.1 + 1)
        priority := pr.1 + 1
        title := "Fix: " ++ (pr.2.title.getD "Issue")
        severity := pr.2.severity.getD "info"
        type := "code_patch"
        findingsResolved := [pr.2.id.getD ""] })

/-- `_generate_fixes` (pipeline.py:1431-1482): one `try` around the chat
call; its failure falls back to `_fallback_fixes`. -/
def generate_fixes (env : Env) (findings : List Finding) : List Fix :=
  if findings = [] then []
  else
    match env.openaiFixOutcome with
    | Except.ok fixes => fixes.take 15
    | Except.error _ => fallback_fixes findings

/-- `sum(1 for f in findings if f.get("severity") == s)`
(pipeline.py:1730-1732, 1800-1802). -/
def countSev (findings : List Finding) (s : String) : Nat :=
  (findings.filter (fun f => f.severity = some s)).length

/-- The observable outcome of one `run_pipeline` invocation: the `status`
column values written to the Analysis row in order, the broadcast events in
order, the persisted error message (FAILED path) and the persisted result
columns (`_finalize`), plus which stage helpers were invoked. -/
structure RunResult where
  statusWrites : List AnalysisStatus
  events : List Ev
  errorMessage : Option String
  stagesRun : List String
  persistedFindings : Option (List Finding)
  persistedHealth : Option HealthScore
  persistedGraph : Option Graph
  persistedFixes : Option (List Fix)
  deriving Repr

/-!
The body of `run_pipeline` (pipeline.py:46-194) is translated as one
definition per local of the source body (`metadata`, `cve_results`, …),
so that each piece can be reasoned about by name; `run_pipeline` itself
assembles them exactly as the source does.  `best_practices_context` only
feeds the `_openai_analyze` prompt, so its value is absorbed by
`env.openaiAnalyzeOutcome`; wall-clock durations and tool-call logging are
not modeled. -/

/-- `metadata` after ingestion and classification (pipeline.py:63-67). -/
def pipelineMetadata (env : Env) : Metadata :=
  classify_files env env.metadata0

/-- `cve_results` (pipeline.py:82). -/
def pipelineCveResults (env : Env) : List CveBatch :=
  tavily_cve_search env (pipelineMetadata env)

/-- `bp_findings` (pipeline.py:88). -/
def pipelineBpFindings (env : Env) : List Finding :=
  tavily_best_practices_search env (pipelineMetadata env)

/-- `cve_findings` (pipeline.py:95-99). -/
def pipelineCveFindings (env : Env) : List Finding :=
  if pipelineCveResults env ≠ [] then
    tavily_extract_and_fastino_cve env (pipelineCveResults env)
  else []

/-- `best_practices` (pipeline.py:106-113). -/
def pipelineBestPractices (env : Env) : List BpResearch :=
  if env.tavily_available then
    tavily_best_practices_research env (pipelineMetadata env)
  else []

/-- `quality_findings` (pipeline.py:123). -/
def pipelineQualityFindings (env : Env) : List Finding :=
  code_quality_analysis env (pipelineMetadata env)

/-- `yutori_results` (pipeline.py:130-134). -/
def pipelineYutoriResults (env : Env) : MergeSrc :=
  if pipelineCveResults env ≠ [] then deep_research env else MergeSrc.nonlist

/-- `deep_findings` (pipeline.py:137-144). -/
def pipelineDeepFindings (env : Env) : List Finding :=
  if env.openai_available then openai_analyze env else []

/-- `all_findings` (pipeline.py:151). -/
def pipelineAllFindings (env : Env) : List Finding :=
  merge_findings
    [MergeSrc.lst ((pipelineCveFindings env).map MergeItem.dict),
     MergeSrc.lst ((pipelineBpFindings env).map MergeItem.dict),
     MergeSrc.lst ((pipelineQualityFindings env).map MergeItem.dict),
     MergeSrc.lst ((pipelineDeepFindings env).map MergeItem.dict),
     pipelineYutoriResults env]

/-- `health_score` (pipeline.py:152). -/
def pipelineHealth (env : Env) : HealthScore :=
  compute_health_score (pipelineAllFindings env) (pipelineMetadata env).stats

/-- `fixes` (pipeline.py:155-159). -/
def pipelineFixes (env : Env) : List Fix :=
  if pipelineAllFindings env ≠ [] ∧ env.openai_available then
    generate_fixes env (pipelineAllFindings env)
  else []

/-- `graph` (pipeline.py:167). -/
def pipelineGraph (env : Env) : Graph :=
  (build_neo4j_graph env.analysis_id (pipelineMetadata env)
    (pipelineAllFindings env) env.neo4j_connected).1

/-- The broadcasts of a successful run, in source order
(pipeline.py:57-179). -/
def successEvents (env : Env) : List Ev :=
  let metadata := pipelineMetadata env
  let cve_results := pipelineCveResults env
  let bp_findings := pipelineBpFindings env
  let cve_findings := pipelineCveFindings env
  let best_practices := pipelineBestPractices env
  let quality_findings := pipelineQualityFindings env
  let deep_findings := pipelineDeepFindings env
  let all_findings := pipelineAllFindings env
  let health_score := pipelineHealth env
  let fixes := pipelineFixes env
  let graph := pipelineGraph env
  [Ev.status "orchestrator" "running" (5/100) "Cloning repository..."]
      ++ [Ev.status "mapper" "running" (1/10) "Scanning files...",
          Ev.status "mapper" "running" (3/10) "Classifying files...",
          Ev.status "mapper" "complete" 1
            ("Mapped " ++ toString metadata.stats.total_files ++ " files, "
              ++ toString metadata.stats.total_functions ++ " functions, "
              ++ toString metadata.stats.total_dependencies ++ " deps"),
          Ev.toolActivity "mapper"
            ("Scanned " ++ toString metadata.stats.total_files ++ " files, "
              ++ toString metadata.stats.total_lines ++ " lines") "openai",
          Ev.status "security" "running" (1/10)
            "Searching for CVEs and best practices...",
          Ev.toolActivity "security" "Querying CVE databases via Tavily..."
            "tavily",
          Ev.status "security" "running" (15/100)
            "Researching best practices...",
          Ev.toolActivity "security"
            "Researching security best practices via Tavily..." "tavily"]
      ++ bp_findings.map Ev.finding
      ++ (if bp_findings ≠ [] then
            [Ev.toolActivity "security"
              ("Found " ++ toString bp_findings.length ++ " best-practice issues")
              "tavily"]
          else [])
      ++ (if cve_results ≠ [] then
            cve_findings.map Ev.finding
            ++ (if cve_findings ≠ [] then
                  [Ev.toolActivity "security"
                    ("Extracted " ++ toString cve_findings.length
                      ++ " CVE findings") "fastino"]
                else [])
          else [])
      ++ (if env.tavily_available then
            [Ev.status "security" "running" (28/100)
              "Researching security best practices & known vulnerabilities...",
             Ev.toolActivity "security"
               "Querying OWASP, CWE, and framework security advisories via Tavily..."
               "tavily"]
            ++ (if best_practices ≠ [] then
                  [Ev.toolActivity "security"
                    ("Gathered intelligence from "
                      ++ toString best_practices.length
                      ++ " security knowledge sources") "tavily"]
                else [])
          else [])
      ++ [Ev.status "quality" "running" (2/10) "Analyzing code quality...",
          Ev.toolActivity "quality"
            "Analyzing source files for code quality issues..." "fastino"]
      ++ quality_findings.map Ev.finding
      ++ (if quality_findings ≠ [] then
            [Ev.toolActivity "quality"
              ("Found " ++ toString quality_findings.length
                ++ " code quality issues") "openai"]
          else [])
      ++ (if cve_results ≠ [] then
            [Ev.status "security" "running" (1/2)
              "Deep research on vulnerabilities...",
             Ev.toolActivity "security" "Researching vulnerabilities..."
               "yutori"]
          else [])
      ++ (if env.openai_available then
            [Ev.status "pattern" "running" (3/10) "Deep pattern analysis...",
             Ev.toolActivity "pattern"
               "Running deep pattern and architecture analysis..." "openai"]
            ++ deep_findings.map Ev.finding
            ++ (if deep_findings ≠ [] then
                  [Ev.toolActivity "pattern"
                    ("Found " ++ toString deep_findings.length
                      ++ " pattern/security issues") "openai"]
                else [])
          else [])
      ++ (if all_findings ≠ [] ∧ env.openai_available then
            [Ev.status "doctor" "running" (3/10) "Generating fix plans...",
             Ev.toolActivity "doctor" "Generating remediation plans..."
               "openai"]
            ++ (if fixes ≠ [] then
                  [Ev.toolActivity "doctor"
                    ("Generated " ++ toString fixes.length
                      ++ " fix recommendations") "openai"]
                else [])
            ++ [Ev.status "doctor" "complete" 1
                  (toString fixes.length ++ " fixes generated")]
          else [])
      ++ [Ev.status "orchestrator" "running" (85/100)
            "Building knowledge graph...",
          Ev.toolActivity "mapper" "Constructing Neo4j knowledge graph..."
            "neo4j"]
      ++ (graph.nodes.take 300).map Ev.graphNode
      ++ (graph.edges.take 300).map Ev.graphEdge
      ++ [Ev.toolActivity "mapper"
            ("Graph built: " ++ toString graph.nodes.length ++ " nodes, "
              ++ toString graph.edges.length ++ " edges") "neo4j",
          Ev.complete health_score (countSev all_findings "critical")
            (countSev all_findings "warning") (countSev all_findings "info")
            all_findings.length]

/-- The stage helpers a successful run invokes, in source order. -/
def successStages (env : Env) : List String :=
  ["clone", "ingest", "classify", "cve_search", "bp_search"]
  ++ (if pipelineCveResults env ≠ [] then ["extract_cve"] else [])
  ++ (if env.tavily_available then
        ["bp_research"]
        ++ (if pipelineBestPractices env ≠ [] then ["extract_bp"] else [])
      else [])
  ++ ["quality"]
  ++ (if pipelineCveResults env ≠ [] then ["deep_research"] else [])
  ++ (if env.openai_available then ["pattern"] else [])
  ++ (if pipelineAllFindings env ≠ [] ∧ env.openai_available then ["fixes"]
      else [])
  ++ ["graph", "finalize"]

/-- `run_pipeline` (pipeline.py:46-194).  The whole body sits in one `try`;
of everything inside it only `_clone_repo` can raise (its `RuntimeError` at
pipeline.py:266 — every other stage helper catches its provider errors
internally, as the stage functions above show), so the `except` handler
(FAILED status write, `str(exc)[:2000]` error message, `_ws_error` with
`message[:500]`) fires exactly on a non-zero git exit; otherwise the run
reaches `_finalize`, which writes COMPLETED and the result columns. -/
def run_pipeline (env : Env) : RunResult :=
  if env.cloneReturncode ≠ 0 then
    let msg := "git clone failed: " ++ env.cloneStderr.take 500
    { statusWrites := [AnalysisStatus.cloning, AnalysisStatus.failed]
      events := [Ev.status "orchestrator" "running" (5/100)
          "Cloning repository...",
        Ev.error (msg.take 500)]
      errorMessage := some (msg.take 2000)
      stagesRun := ["clone"]
      persistedFindings := none
      persistedHealth := none
      persistedGraph := none
      persistedFixes := none }
  else
    { statusWrites := [AnalysisStatus.cloning, AnalysisStatus.mapping,
        AnalysisStatus.analyzing, AnalysisStatus.completed]
      events := successEvents env
      errorMessage := none
      stagesRun := successStages env
      persistedFindings := some (pipelineAllFindings env)
      persistedHealth := some (pipelineHealth env)
      persistedGraph := some (pipelineGraph env)
      persistedFixes := some (pipelineFixes env) }

/-- Recognizer for `{"type": "error", ...}` broadcasts. -/
def Ev.isError : Ev → Bool
  | Ev.error _ => true
  | _ => false

/-- Recognizer for `{"type": "graph_node", ...}` broadcasts. -/
def Ev.isGraphNode : Ev → Bool
  | Ev.graphNode _ => true
  | _ => false

/-- Recognizer for `{"type": "graph_edge", ...}` broadcasts. -/
def Ev.isGraphEdge : Ev → Bool
  | Ev.graphEdge _ => true
  | _ => false

theorem filter_false_map {α : Type} (p : Ev → Bool) (f : α → Ev)
    (h : ∀ a, p (f a) = false) (l : List α) : (l.map f).filter p = [] := by
  induction l with
  | nil => rfl
  | cons a t ih => simp [List.filter_cons, h, ih]

theorem filter_true_map {α : Type} (p : Ev → Bool) (f : α → Ev)
    (h : ∀ a, p (f a) = true) (l : List α) : (l.map f).filter p = l.map f := by
  induction l with
  | nil => rfl
  | cons a t ih => simp [List.filter_cons, h, ih]

theorem isError_filter_finding (l : List Finding) :
    (l.map Ev.finding).filter Ev.isError = [] :=
  filter_false_map _ _ (fun _ => rfl) l

theorem isError_filter_node (l : List GNode) :
    (l.map Ev.graphNode).filter Ev.isError = [] :=
  filter_false_map _ _ (fun _ => rfl) l

theorem isError_filter_edge (l : List GEdge) :
    (l.map Ev.graphEdge).filter Ev.isError = [] :=
  filter_false_map _ _ (fun _ => rfl) l

theorem isGraphNode_filter_finding (l : List Finding) :
    (l.map Ev.finding).filter Ev.isGraphNode = [] :=
  filter_false_map _ _ (fun _ => rfl) l

theorem isGraphNode_filter_node (l : List GNode) :
    (l.map Ev.graphNode).filter Ev.isGraphNode = l.map Ev.graphNode :=
  filter_true_map _ _ (fun _ => rfl) l

theorem isGraphNode_filter_edge (l : List GEdge) :
    (l.map Ev.graphEdge).filter Ev.isGraphNode = [] :=
  filter_false_map _ _ (fun _ => rfl) l

theorem isGraphEdge_filter_finding (l : List Finding) :
    (l.map Ev.finding).filter Ev.isGraphEdge = [] :=
  filter_false_map _ _ (fun _ => rfl) l

theorem isGraphEdge_filter_node (l : List GNode) :
    (l.map Ev.graphNode).filter Ev.isGraphEdge = [] :=
  filter_false_map _ _ (fun _ => rfl) l

theorem isGraphEdge_filter_edge (l : List GEdge) :
    (l.map Ev.graphEdge).filter Ev.isGraphEdge = l.map Ev.graphEdge :=
  filter_true_map _ _ (fun _ => rfl) l

/-- No broadcast of a successful run is an error event (the `_ws_error`
call sits only in the `except` handler). -/
theorem successEvents_error_filter (env : Env) :
    (successEvents env).filter Ev.isError = [] := by
  unfold successEvents
  simp only [List.filter_append, List.filter_cons, List.filter_nil,
    apply_ite (List.filter Ev.isError), Ev.isError, isError_filter_finding,
    isError_filter_node, isError_filter_edge]
  simp

/-- The graph-node events of a successful run are exactly the first 300
graph nodes, in order (pipeline.py:169-170). -/
theorem successEvents_graphNode_filter (env : Env) :
    (successEvents env).filter Ev.isGraphNode
      = ((pipelineGraph env).nodes.take 300).map Ev.graphNode := by
  unfold successEvents
  simp only [List.filter_append, List.filter_cons, List.filter_nil,
    apply_ite (List.filter Ev.isGraphNode), Ev.isGraphNode,
    isGraphNode_filter_finding, isGraphNode_filter_node,
    isGraphNode_filter_edge]
  simp

/-- The graph-edge events of a successful run are exactly the first 300
graph edges, in order (pipeline.py:171-172). -/
theorem successEvents_graphEdge_filter (env : Env) :
    (successEvents env).filter Ev.isGraphEdge
      = ((pipelineGraph env).edges.take 300).map Ev.graphEdge := by
  unfold successEvents
  simp only [List.filter_append, List.filter_cons, List.filter_nil,
    apply_ite (List.filter Ev.isGraphEdge), Ev.isGraphEdge,
    isGraphEdge_filter_finding, isGraphEdge_filter_node,
    isGraphEdge_filter_edge]
  simp

/-- The status-column writes of `run_pipeline`, by clone outcome. -/
theorem run_pipeline_statusWrites (env : Env) :
    (run_pipeline env).statusWrites =
      if env.cloneReturncode ≠ 0 then
        [AnalysisStatus.cloning, AnalysisStatus.failed]
      else
        [AnalysisStatus.cloning, AnalysisStatus.mapping,
         AnalysisStatus.analyzing, AnalysisStatus.completed] := by
  unfold run_pipeline
  by_cases h : env.cloneReturncode ≠ 0 <;> simp [h]

/-- The persisted `error_message`, by clone outcome. -/
theorem run_pipeline_errorMessage (env : Env) :
    (run_pipeline env).errorMessage =
      if env.cloneReturncode ≠ 0 then
        some (("git clone failed: " ++ env.cloneStderr.take 500).take 2000)
      else none := by
  unfold run_pipeline
  by_cases h : env.cloneReturncode ≠ 0 <;> simp [h]

/-- The broadcast list, by clone outcome. -/
theorem run_pipeline_events (env : Env) :
    (run_pipeline env).events =
      if env.cloneReturncode ≠ 0 then
        [Ev.status "orchestrator" "running" (5/100) "Cloning repository...",
         Ev.error (("git clone failed: " ++ env.cloneStderr.take 500).take 500)]
      else successEvents env := by
  unfold run_pipeline
  by_cases h : env.cloneReturncode ≠ 0 <;> simp [h]

/-- The invoked stage helpers, by clone outcome. -/
theorem run_pipeline_stagesRun (env : Env) :
    (run_pipeline env).stagesRun =
      if env.cloneReturncode ≠ 0 then ["clone"] else successStages env := by
  unfold run_pipeline
  by_cases h : env.cloneReturncode ≠ 0 <;> simp [h]

/-- The persisted graph snapshot, by clone outcome. -/
theorem run_pipeline_persistedGraph (env : Env) :
    (run_pipeline env).persistedGraph =
      if env.cloneReturncode ≠ 0 then none else some (pipelineGraph env) := by
  unfold run_pipeline
  by_cases h : env.cloneReturncode ≠ 0 <;> simp [h]

/-- A concrete environment: the clone succeeds and every provider is
unavailable or failing. -/
def envOk : Env :=
  { analysis_id := "A"
    cloneReturncode := 0
    cloneStderr := ""
    metadata0 := {}
    fastino_available := false
    openai_available := false
    tavily_available := false
    yutori_available := false
    neo4j_connected := false
    fastinoClassifyOutcome := Except.error {}
    openaiClassifyOutcome := Except.error {}
    cveSearchOutcome := fun _ => Except.error {}
    tavilyExtractOutcome := Except.error {}
    fastinoEntitiesOutcome := Except.error {}
    bpStackSearch := Except.error {}
    bpMisconfigSearch := Except.error {}
    bpChatOutcome := Except.error {}
    bpFallbackFindings := []
    bpResearchOutcome := fun _ => Except.error {}
    bpExtractOutcome := Except.error {}
    fastinoQualityOutcome := Except.error {}
    qualitySamplesEmpty := true
    openaiQualityOutcome := Except.error {}
    yutoriResearchOutcome := Except.error {}
    openaiResearchOutcome := Except.error {}
    openaiAnalyzeOutcome := Except.error {}
    openaiFixOutcome := Except.error {} }

/-- A concrete environment: `git clone` exits 128. -/
def envFail : Env :=
  { envOk with
    cloneReturncode := 128
    cloneStderr := "fatal: repository not found" }

/-- C2: if `git clone` exits non-zero, the run writes CLONING then FAILED,
persists the truncated error message
`("git clone failed: " ++ stderr[:500])[:2000]`, broadcasts exactly one
error event, and invokes no stage beyond the clone; and clone failure is
the only fatal stage — whenever the clone succeeds, the run reaches
COMPLETED with no error message and no error event, no matter how every
provider call turns out. -/
theorem c2_clone_failure_fatal (env : Env) :
    (env.cloneReturncode ≠ 0 →
      (run_pipeline env).statusWrites
          = [AnalysisStatus.cloning, AnalysisStatus.failed]
      ∧ (run_pipeline env).errorMessage
          = some (("git clone failed: " ++ env.cloneStderr.take 500).take 2000)
      ∧ ((run_pipeline env).events.filter Ev.isError).length = 1
      ∧ (run_pipeline env).stagesRun = ["clone"])
    ∧ (env.cloneReturncode = 0 →
      (run_pipeline env).statusWrites
          = [AnalysisStatus.cloning, AnalysisStatus.mapping,
             AnalysisStatus.analyzing, AnalysisStatus.completed]
      ∧ (run_pipeline env).errorMessage = none
      ∧ ((run_pipeline env).events.filter Ev.isError).length = 0) := by
  constructor
  · intro h
    refine ⟨?_, ?_, ?_, ?_⟩
    · rw [run_pipeline_statusWrites, if_pos h]
    · rw [run_pipeline_errorMessage, if_pos h]
    · rw [run_pipeline_events, if_pos h]
      simp [List.filter_cons, Ev.isError]
    · rw [run_pipeline_stagesRun, if_pos h]
  · intro h
    have h' : ¬ env.cloneReturncode ≠ 0 := fun hc => hc h
    refine ⟨?_, ?_, ?_⟩
    · rw [run_pipeline_statusWrites, if_neg h']
    · rw [run_pipeline_errorMessage, if_neg h']
    · rw [run_pipeline_events, if_neg h', successEvents_error_filter]
      rfl

theorem c2_clone_failure_fatal_witness :
    (run_pipeline envFail).statusWrites
        = [AnalysisStatus.cloning, AnalysisStatus.failed]
    ∧ ((run_pipeline envFail).events.filter Ev.isError).length = 1
    ∧ (run_pipeline envFail).stagesRun = ["clone"]
    ∧ (run_pipeline envOk).statusWrites
        = [AnalysisStatus.cloning, AnalysisStatus.mapping,
           AnalysisStatus.analyzing, AnalysisStatus.completed]
    ∧ ((run_pipeline envOk).events.filter Ev.isError).length = 0 :=
  ⟨((c2_clone_failure_fatal envFail).1 (by decide)).1,
   ((c2_clone_failure_fatal envFail).1 (by decide)).2.2.1,
   ((c2_clone_failure_fatal envFail).1 (by decide)).2.2.2,
   ((c2_clone_failure_fatal envOk).2 rfl).1,
   ((c2_clone_failure_fatal envOk).2 rfl).2.2⟩

/-- The spec's status machine (spec.md "States"): the success chain
QUEUED → CLONING → MAPPING → ANALYZING → COMPLETING → COMPLETED, or FAILED
from any non-terminal state.  Spec-side definition, for comparison. -/
def specStatusStep : AnalysisStatus → AnalysisStatus → Bool
  | AnalysisStatus.queued, AnalysisStatus.cloning => true
  | AnalysisStatus.cloning, AnalysisStatus.mapping => true
  | AnalysisStatus.mapping, AnalysisStatus.analyzing => true
  | AnalysisStatus.analyzing, AnalysisStatus.completing => true
  | AnalysisStatus.completing, AnalysisStatus.completed => true
  | AnalysisStatus.completed, _ => false
  | AnalysisStatus.failed, _ => false
  | _, AnalysisStatus.failed => true
  | _, _ => false

/-- The transitions the code actually performs: `run_pipeline` writes
CLONING, MAPPING, ANALYZING (pipeline.py:56,61,79) and `_finalize` writes
COMPLETED directly (pipeline.py:1739) — COMPLETING is skipped — with FAILED
written by the `except` handler from a non-terminal state. -/
def codeStatusStep : AnalysisStatus → AnalysisStatus → Bool
  | AnalysisStatus.queued, AnalysisStatus.cloning => true
  | AnalysisStatus.cloning, AnalysisStatus.mapping => true
  | AnalysisStatus.mapping, AnalysisStatus.analyzing => true
  | AnalysisStatus.analyzing, AnalysisStatus.completed => true
  | AnalysisStatus.completed, _ => false
  | AnalysisStatus.failed, _ => false
  | _, AnalysisStatus.failed => true
  | _, _ => false

/-- C3 counterexample: a run whose clone succeeds (all providers down, so
every later stage still completes) never writes COMPLETING, yet ends
COMPLETED — refuting "a successful run passes through COMPLETING before
COMPLETED". -/
theorem c3_counterexample :
    (run_pipeline envOk).statusWrites.contains AnalysisStatus.completing
        = false
    ∧ (run_pipeline envOk).statusWrites.getLast?
        = some AnalysisStatus.completed := by
  have hs := run_pipeline_statusWrites envOk
  rw [if_neg (by decide)] at hs
  rw [hs]
  constructor
  · rfl
  · rfl

/-- C3 (amended): starting from QUEUED, every run's status writes follow the
code's machine QUEUED → CLONING → MAPPING → ANALYZING → COMPLETED (COMPLETING
is never written) with FAILED only from a non-terminal state; no status
follows COMPLETED or FAILED; and the code's machine agrees with the spec's
except for the single transition ANALYZING → COMPLETED that replaces the
spec's detour through COMPLETING. -/
theorem c3_status_machine (env : Env) :
    List.Chain' (fun a b => codeStatusStep a b = true)
      (AnalysisStatus.queued :: (run_pipeline env).statusWrites)
    ∧ AnalysisStatus.completing ∉ (run_pipeline env).statusWrites
    ∧ (∀ s ∈ (run_pipeline env).statusWrites.dropLast,
        s ≠ AnalysisStatus.completed ∧ s ≠ AnalysisStatus.failed)
    ∧ (∀ a b : AnalysisStatus, codeStatusStep a b = true →
        specStatusStep a b = true
        ∨ (a = AnalysisStatus.analyzing ∧ b = AnalysisStatus.completed)) := by
  have hstep : ∀ a b : AnalysisStatus, codeStatusStep a b = true →
      specStatusStep a b = true
      ∨ (a = AnalysisStatus.analyzing ∧ b = AnalysisStatus.completed) := by
    intro a b
    cases a <;> cases b <;> simp [codeStatusStep, specStatusStep]
  have hs := run_pipeline_statusWrites env
  by_cases h : env.cloneReturncode ≠ 0
  · rw [if_pos h] at hs
    rw [hs]
    refine ⟨?_, ?_, ?_, hstep⟩
    · simp [List.chain'_cons, List.chain'_singleton, codeStatusStep]
    · decide
    · decide
  · rw [if_neg h] at hs
    rw [hs]
    refine ⟨?_, ?_, ?_, hstep⟩
    · simp [List.chain'_cons, List.chain'_singleton, codeStatusStep]
    · decide
    · decide

theorem c3_status_machine_witness :
    List.Chain' (fun a b => codeStatusStep a b = true)
      (AnalysisStatus.queued :: (run_pipeline envOk).statusWrites)
    ∧ AnalysisStatus.completing ∉ (run_pipeline envOk).statusWrites :=
  ⟨(c3_status_machine envOk).1, (c3_status_machine envOk).2.1⟩

/-- C10: the built graph's file nodes are exactly the first 200 metadata
files and its package nodes exactly the first 50 dependencies (so a file or
dependency past those positions — one not shadowed by an identically named
earlier entry — has no node), every edge connects two existing (hence
capped) nodes, and at most the first 300 graph nodes and 300 graph edges
are streamed: on a successful run the graph-node/graph-edge events are
exactly `nodes[:300]` / `edges[:300]` of the persisted graph. -/
theorem c10_output_caps (env : Env) (aid : String) (m : Metadata)
    (fs : List Finding) (conn : Bool) :
    ((build_neo4j_graph aid m fs conn).1.nodes.filter
        (fun n => n.type == "file"))
        = (m.files.take 200).map (fileNodeOf aid fs)
    ∧ ((build_neo4j_graph aid m fs conn).1.nodes.filter
        (fun n => n.type == "package"))
        = (m.dependencies.take 50).map (pkgNodeOf aid)
    ∧ (∀ f ∈ m.files.drop 200,
        f.path ∉ (m.files.take 200).map FileMeta.path →
        ∀ n ∈ (build_neo4j_graph aid m fs conn).1.nodes,
          ¬ (n.type = "file" ∧ n.path = f.path))
    ∧ (∀ d ∈ m.dependencies.drop 50,
        d.name ∉ (m.dependencies.take 50).map Dep.name →
        ∀ n ∈ (build_neo4j_graph aid m fs conn).1.nodes,
          ¬ (n.type = "package" ∧ n.metaName = d.name))
    ∧ (∀ e ∈ (build_neo4j_graph aid m fs conn).1.edges,
        (∃ n ∈ (build_neo4j_graph aid m fs conn).1.nodes, n.id = e.source)
        ∧ (∃ n ∈ (build_neo4j_graph aid m fs conn).1.nodes, n.id = e.target))
    ∧ ((run_pipeline env).events.filter Ev.isGraphNode).length ≤ 300
    ∧ ((run_pipeline env).events.filter Ev.isGraphEdge).length ≤ 300
    ∧ (env.cloneReturncode = 0 →
        (run_pipeline env).events.filter Ev.isGraphNode
          = ((pipelineGraph env).nodes.take 300).map Ev.graphNode
        ∧ (run_pipeline env).events.filter Ev.isGraphEdge
          = ((pipelineGraph env).edges.take 300).map Ev.graphEdge
        ∧ (run_pipeline env).persistedGraph = some (pipelineGraph env)) := by
  have hnodes : (build_neo4j_graph aid m fs conn).1.nodes
      = (buildState aid m fs).nodes := rfl
  have hedges : (build_neo4j_graph aid m fs conn).1.edges
      = (buildState aid m fs).edges := rfl
  have hfile := buildState_file_nodes aid m fs
  have hpkg := buildState_pkg_nodes aid m fs
  refine ⟨?_, ?_, ?_, ?_, ?_, ?_, ?_, ?_⟩
  · rw [hnodes]
    exact hfile
  · rw [hnodes]
    exact hpkg
  · intro f hf hnotin n hn hcontra
    obtain ⟨ht, hp⟩ := hcontra
    rw [hnodes] at hn
    have hmemf : n ∈ ((buildState aid m fs).nodes.filter
        (fun n => n.type == "file")) :=
      List.mem_filter.2 ⟨hn, by simp [ht]⟩
    rw [hfile] at hmemf
    obtain ⟨f', hf', rfl⟩ := List.mem_map.1 hmemf
    have hpath : (fileNodeOf aid fs f').path = f'.path := rfl
    exact hnotin (List.mem_map.2 ⟨f', hf', by rw [← hpath]; exact hp⟩)
  · intro d hd hnotin n hn hcontra
    obtain ⟨ht, hp⟩ := hcontra
    rw [hnodes] at hn
    have hmemp : n ∈ ((buildState aid m fs).nodes.filter
        (fun n => n.type == "package")) :=
      List.mem_filter.2 ⟨hn, by simp [ht]⟩
    rw [hpkg] at hmemp
    obtain ⟨d', hd', rfl⟩ := List.mem_map.1 hmemp
    have hname : (pkgNodeOf aid d').metaName = d'.name := rfl
    exact hnotin (List.mem_map.2 ⟨d', hd', by rw [← hname]; exact hp⟩)
  · obtain ⟨_, _, _, _, hie, _⟩ := buildState_invariants aid m fs
    intro e he
    rw [hedges] at he
    obtain ⟨hs, ht⟩ := hie e he
    rw [hnodes]
    exact ⟨hs, ht⟩
  · rw [run_pipeline_events]
    by_cases h : env.cloneReturncode ≠ 0
    · rw [if_pos h]
      simp [List.filter_cons, Ev.isGraphNode]
    · rw [if_neg h, successEvents_graphNode_filter, List.length_map,
        List.length_take]
      exact Nat.min_le_left _ _
  · rw [run_pipeline_events]
    by_cases h : env.cloneReturncode ≠ 0
    · rw [if_pos h]
      simp [List.filter_cons, Ev.isGraphEdge]
    · rw [if_neg h, successEvents_graphEdge_filter, List.length_map,
        List.length_take]
      exact Nat.min_le_left _ _
  · intro h0
    have h' : ¬ env.cloneReturncode ≠ 0 := fun hc => hc h0
    refine ⟨?_, ?_, ?_⟩
    · rw [run_pipeline_events, if_neg h', successEvents_graphNode_filter]
    · rw [run_pipeline_events, if_neg h', successEvents_graphEdge_filter]
    · rw [run_pipeline_persistedGraph, if_neg h']

theorem c10_output_caps_witness :
    ((build_neo4j_graph "A" {} [] true).1.nodes.filter
        (fun n => n.type == "file"))
        = (({} : Metadata).files.take 200).map (fileNodeOf "A" [])
    ∧ (run_pipeline envOk).events.filter Ev.isGraphNode
        = ((pipelineGraph envOk).nodes.take 300).map Ev.graphNode :=
  ⟨(c10_output_caps envOk "A" {} [] true).1,
   ((c10_output_caps envOk "A" {} [] true).2.2.2.2.2.2.2 rfl).1⟩

end Engine
